import Mathlib

/-!
Shallow embedding of `src/vs/workbench/common/contributions.ts`
(`WorkbenchContributionsRegistry`), a phased workbench-contribution
scheduler.

Modelling conventions:
* Constructor capabilities (`ctor`) are opaque numeric identifiers; the
  external instantiation service is modelled by a parameter
  `cf : Nat -> Bool` giving, for each constructor, whether
  `createInstance` throws (`true` = the factory throws).  Each successful
  `createInstance` mints a fresh instance token from a counter, so
  instance identity is token equality, and the trace `created` records
  every factory invocation in order.
* Wall-clock durations are abstracted to `0` (the slow-creation warning
  threshold of 20/100 ms is kept in the code shape but can never fire).
* The JS event loop is modelled by an explicit event list: external
  lifecycle-phase advances, idle-callback slices, registrations and
  lookups.  An `IdleDeadline` is modelled by a `budget`: the deadline
  reports at least 1 unit remaining for the first `budget` queries made
  after a creation and less than 1 unit from then on.
* The `DeferredPromise` behind `whenRestored` is a three-state signal;
  `complete` on an already-settled promise is a no-op, exactly as for a
  JS promise, and nothing in the source ever calls `error` on it.
-/

namespace VSContrib

/-- `LifecyclePhase` from `vs/workbench/services/lifecycle/common/lifecycle`
(numeric enum Starting=1, Ready=2, Restored=3, Eventually=4). -/
inductive LifecyclePhase
  | Starting
  | Ready
  | Restored
  | Eventually
deriving DecidableEq, Repr

/-- The numeric value of the TS enum member. -/
def LifecyclePhase.toNat : LifecyclePhase → Nat
  | .Starting => 1
  | .Ready => 2
  | .Restored => 3
  | .Eventually => 4

/-- `WorkbenchContributionInstantiation` (numeric enum; `Lazy` is
`LifecyclePhase.Eventually + 1 = 5`). -/
inductive WorkbenchContributionInstantiation
  | BlockStartup
  | BlockRestore
  | AfterRestored
  | Eventually
  | Lazy
deriving DecidableEq, Repr

/-- The numeric value of the TS enum member. -/
def WorkbenchContributionInstantiation.toNat : WorkbenchContributionInstantiation → Nat
  | .BlockStartup => 1
  | .BlockRestore => 2
  | .AfterRestored => 3
  | .Eventually => 4
  | .Lazy => 5

/-- `toInstantiation` from contributions.ts. -/
def toInstantiation : LifecyclePhase → WorkbenchContributionInstantiation
  | .Starting => .BlockStartup
  | .Ready => .BlockRestore
  | .Restored => .AfterRestored
  | .Eventually => .Eventually

/-- `toPhase` from contributions.ts.  The source only ever applies it to
non-`Lazy` values (its TS argument type excludes `Lazy`); we return
`none` for `Lazy`. -/
def toPhase : WorkbenchContributionInstantiation → Option LifecyclePhase
  | .BlockStartup => some .Starting
  | .BlockRestore => some .Ready
  | .AfterRestored => some .Restored
  | .Eventually => some .Eventually
  | .Lazy => none

/-- `IWorkbenchContributionRegistration`: optional stable id plus the
constructor capability (an opaque numeric identifier here). -/
structure Registration where
  id : Option String
  ctorId : Nat
deriving DecidableEq, Repr

/-- A `Map<LifecyclePhase, a>`: presence (`some`) vs absence (`none`)
of an entry matters, mirroring `Map.get` returning `undefined`. -/
structure PhaseMap (α : Type) where
  starting : Option α
  ready : Option α
  restored : Option α
  eventually : Option α
deriving DecidableEq, Repr

def PhaseMap.empty : PhaseMap α := ⟨none, none, none, none⟩

def PhaseMap.get (m : PhaseMap α) : LifecyclePhase → Option α
  | .Starting => m.starting
  | .Ready => m.ready
  | .Restored => m.restored
  | .Eventually => m.eventually

def PhaseMap.set (m : PhaseMap α) (p : LifecyclePhase) (v : α) : PhaseMap α :=
  match p with
  | .Starting => { m with starting := some v }
  | .Ready => { m with ready := some v }
  | .Restored => { m with restored := some v }
  | .Eventually => { m with eventually := some v }

def PhaseMap.delete (m : PhaseMap α) (p : LifecyclePhase) : PhaseMap α :=
  match p with
  | .Starting => { m with starting := none }
  | .Ready => { m with ready := none }
  | .Restored => { m with restored := none }
  | .Eventually => { m with eventually := none }

/-- `Map.get` on a string-keyed map (first matching binding). -/
def lookupA (l : List (String × α)) (k : String) : Option α :=
  match l with
  | [] => none
  | (k1, v1) :: rest => if k1 = k then some v1 else lookupA rest k

/-- `Map.set` on a string-keyed map (replace the binding if present,
append otherwise). -/
def setA (l : List (String × α)) (k : String) (v : α) : List (String × α) :=
  match l with
  | [] => [(k, v)]
  | (k1, v1) :: rest => if k1 = k then (k, v) :: rest else (k1, v1) :: setA rest k v

/-- `Map.delete` on a string-keyed map (remove the first binding). -/
def deleteA (l : List (String × α)) (k : String) : List (String × α) :=
  match l with
  | [] => []
  | (k1, v1) :: rest => if k1 = k then rest else (k1, v1) :: deleteA rest k

/-- The state of the `DeferredPromise` behind `whenRestored`. -/
inductive SignalState
  | pending
  | completed
  | rejected
deriving DecidableEq, Repr

/-- A scheduled `runWhenGlobalIdle` callback: the closure of
`instantiateSome` with its captured batch, current index `i`, phase and
forced timeout. -/
structure IdleTask where
  contributions : List Registration
  i : Nat
  phase : LifecyclePhase
  forcedTimeout : Nat
deriving DecidableEq, Repr

/-- Observable log output (console/log-service calls). -/
inductive LogEvent
  | duplicateId (id : String)
  | creationError (id : Option String) (ctorId : Nat)
  | slowCreation (id : Option String)
  | earlyGet (id : String)
deriving DecidableEq, Repr

/-- The three errors `getWorkbenchContribution` can throw. -/
inductive GetError
  | notStarted
  | unknown
  | failedToCreate
deriving DecidableEq, Repr

/-- The whole registry state plus the external lifecycle phase, the
scheduled idle callbacks and one-shot phase continuations, and the
observation traces (`created`, `log`). -/
structure State where
  lifecyclePhase : LifecyclePhase
  started : Bool
  isBuilt : Bool
  contributionsByPhase : PhaseMap (List Registration)
  contributionsById : List (String × Registration)
  instancesById : List (String × Nat)
  timingsByPhase : PhaseMap (List (String × Nat))
  restoredSignal : SignalState
  eventuallyWaiting : Option (List Registration)
  phaseWaiters : List LifecyclePhase
  idleTasks : List IdleTask
  nextInstance : Nat
  created : List Nat
  log : List LogEvent
deriving DecidableEq, Repr

def initState : State where
  lifecyclePhase := .Starting
  started := false
  isBuilt := true
  contributionsByPhase := PhaseMap.empty
  contributionsById := []
  instancesById := []
  timingsByPhase := PhaseMap.empty
  restoredSignal := .pending
  eventuallyWaiting := none
  phaseWaiters := []
  idleTasks := []
  nextInstance := 0
  created := []
  log := []

/-- `BLOCK_BEFORE_RESTORE_WARN_THRESHOLD = 20`,
`BLOCK_AFTER_RESTORE_WARN_THRESHOLD = 100`. -/
def warnThreshold (phase : LifecyclePhase) : Nat :=
  if phase.toNat < LifecyclePhase.Restored.toNat then 20 else 100

/-- The guard at the top of `safeCreateContribution`:
`typeof contribution.id === 'string' && this.instancesById.has(contribution.id)`. -/
def idCached (c : Registration) (s : State) : Bool :=
  match c.id with
  | some i => (lookupA s.instancesById i).isSome
  | none => false

/-- The try/catch body of `safeCreateContribution`: invoke
`createInstance`; on success cache the instance under the id and retire
the pending by-id entry; on failure log and rethrow nothing. -/
def createNow (cf : Nat → Bool) (c : Registration) (s : State) : State :=
  let s1 := { s with created := s.created ++ [c.ctorId] }
  if cf c.ctorId then
    { s1 with log := s1.log ++ [LogEvent.creationError c.id c.ctorId] }
  else
    let inst := s1.nextInstance
    let s2 := { s1 with nextInstance := inst + 1 }
    match c.id with
    | some i =>
      { s2 with instancesById := setA s2.instancesById i inst,
                contributionsById := deleteA s2.contributionsById i }
    | none => s2

/-- Append an `(id, time)` entry to `timingsByPhase`, creating the phase
bucket on demand. -/
def pushTiming (m : PhaseMap (List (String × Nat))) (phase : LifecyclePhase)
    (i : String) (time : Nat) : PhaseMap (List (String × Nat)) :=
  match m.get phase with
  | some l => m.set phase (l ++ [(i, time)])
  | none => m.set phase [(i, time)]

/-- The trailing timing/telemetry block of `safeCreateContribution`.
Elapsed wall-clock time is abstracted to `0`, so the slow-creation
warning can never fire, but the code shape is kept. -/
def recordTiming (c : Registration) (phase : LifecyclePhase) (s : State) : State :=
  let time := 0
  if c.id.isSome || !s.isBuilt then
    let s1 :=
      if time > warnThreshold phase then
        { s with log := s.log ++ [LogEvent.slowCreation c.id] }
      else s
    match c.id with
    | some i => { s1 with timingsByPhase := pushTiming s1.timingsByPhase phase i time }
    | none => s1
  else s

/-- `safeCreateContribution` from contributions.ts. -/
def safeCreateContribution (cf : Nat → Bool) (c : Registration)
    (phase : LifecyclePhase) (s : State) : State :=
  if idCached c s then s
  else recordTiming c phase (createNow cf c s)

/-- `doInstantiateWhenIdle`: schedule the first `instantiateSome` slice
via `runWhenGlobalIdle` with the phase-dependent forced timeout. -/
def doInstantiateWhenIdle (contribs : List Registration) (phase : LifecyclePhase)
    (s : State) : State :=
  let forcedTimeout := if phase = .Eventually then 3000 else 500
  { s with idleTasks := s.idleTasks ++ [⟨contribs, 0, phase, forcedTimeout⟩] }

/-- `this.pendingRestoredContributions.complete()`: a JS promise settles
at most once, so completing an already-settled signal is a no-op.  When
the signal transitions to completed, the continuation suspended in
`doInstantiateByPhase(Eventually)` (if any) resumes and schedules the
Eventually idle batch. -/
def completeRestored (s : State) : State :=
  if s.restoredSignal = .pending then
    let s1 := { s with restoredSignal := .completed }
    match s1.eventuallyWaiting with
    | some contribs => doInstantiateWhenIdle contribs .Eventually { s1 with eventuallyWaiting := none }
    | none => s1
  else s

/-- One `instantiateSome` idle slice: create contributions one at a time
from index `i`; after each creation query the deadline, and when it
reports less than 1 unit remaining (`budget` exhausted), reschedule and
break.  Returns the new state, the new index and whether the slice
rescheduled itself. -/
def instantiateSome (cf : Nat → Bool) (contribs : List Registration)
    (phase : LifecyclePhase) : Nat → Nat → State → State × Nat × Bool
  | budget, i, s =>
    if h : i < contribs.length then
      let s1 := safeCreateContribution cf (contribs.get ⟨i, h⟩) phase s
      match budget with
      | 0 => (s1, i + 1, true)
      | b + 1 => instantiateSome cf contribs phase b (i + 1) s1
    else (s, i, false)

/-- Run one scheduled idle callback: the slice body, the self-reschedule
(same batch, advanced index, same forced timeout), and, when the batch
index reached the end, the completion of the Restored signal. -/
def runIdleTask (cf : Nat → Bool) (t : IdleTask) (budget : Nat) (s : State) : State :=
  let r := instantiateSome cf t.contributions t.phase budget t.i s
  let s1 := r.1
  let i2 := r.2.1
  let s2 :=
    if r.2.2 then { s1 with idleTasks := s1.idleTasks ++ [{ t with i := i2 }] }
    else s1
  if i2 = t.contributions.length then
    if t.phase = .Restored then completeRestored s2 else s2
  else s2

/-- `doInstantiateByPhase`: pop the phase's entire pending sequence
first, then dispatch — inline for Starting/Ready, idle-batched for
Restored/Eventually, the latter gated on the Restored signal. -/
def doInstantiateByPhase (cf : Nat → Bool) (phase : LifecyclePhase) (s : State) : State :=
  match s.contributionsByPhase.get phase with
  | none => s
  | some contribs =>
    let s1 := { s with contributionsByPhase := s.contributionsByPhase.delete phase }
    match phase with
    | .Starting => contribs.foldl (fun acc c => safeCreateContribution cf c phase acc) s1
    | .Ready => contribs.foldl (fun acc c => safeCreateContribution cf c phase acc) s1
    | .Restored => doInstantiateWhenIdle contribs .Restored s1
    | .Eventually =>
      match s1.restoredSignal with
      | .completed => doInstantiateWhenIdle contribs .Eventually s1
      | .pending => { s1 with eventuallyWaiting := some contribs }
      | .rejected => s1

/-- `instantiateByPhase`: process now when the lifecycle phase is
already reached, otherwise register a one-shot `when(phase)`
continuation. -/
def instantiateByPhase (cf : Nat → Bool) (phase : LifecyclePhase) (s : State) : State :=
  if phase.toNat ≤ s.lifecyclePhase.toNat then doInstantiateByPhase cf phase s
  else { s with phaseWaiters := s.phaseWaiters ++ [phase] }

/-- `start`: record the services (here: the `started` flag) and walk the
four phases in increasing order. -/
def start (cf : Nat → Bool) (s : State) : State :=
  [LifecyclePhase.Starting, .Ready, .Restored, .Eventually].foldl
    (fun acc p => instantiateByPhase cf p acc) { s with started := true }

/-- Resolution of the one-shot `lifecycleService.when(phase)`
continuations after the lifecycle phase advanced: each registered waiter
whose phase has been reached fires once, in increasing phase order, and
is removed. -/
def firePhaseWaiters (cf : Nat → Bool) (s : State) : State :=
  [LifecyclePhase.Starting, .Ready, .Restored, .Eventually].foldl
    (fun acc p =>
      if p ∈ acc.phaseWaiters ∧ p.toNat ≤ acc.lifecyclePhase.toNat then
        doInstantiateByPhase cf p { acc with phaseWaiters := acc.phaseWaiters.erase p }
      else acc) s

/-- The external lifecycle service advancing its phase (monotone). -/
def advancePhase (cf : Nat → Bool) (p : LifecyclePhase) (s : State) : State :=
  if s.lifecyclePhase.toNat < p.toNat then
    firePhaseWaiters cf { s with lifecyclePhase := p }
  else s

/-- The by-id half of the deferred-registration branch of
`registerWorkbenchContribution2`: first registration wins, a duplicate
id is reported and dropped. -/
def registerById (id : Option String) (c : Registration) (s : State) : State :=
  match id with
  | some i =>
    if (lookupA s.contributionsById i).isSome then
      { s with log := s.log ++ [LogEvent.duplicateId i] }
    else
      { s with contributionsById := setA s.contributionsById i c }
  | none => s

/-- Append a registration to a phase's pending sequence, creating the
bucket on demand. -/
def pushByPhase (m : PhaseMap (List Registration)) (phase : LifecyclePhase)
    (c : Registration) : PhaseMap (List Registration) :=
  match m.get phase with
  | some l => m.set phase (l ++ [c])
  | none => m.set phase [c]

/-- `registerWorkbenchContribution2`: instantiate directly when the
registry has started and the lifecycle phase already matches a
non-`Lazy` policy; otherwise store by phase (non-`Lazy`) and by id. -/
def registerWorkbenchContribution2 (cf : Nat → Bool) (id : Option String)
    (ctorId : Nat) (instantiation : WorkbenchContributionInstantiation)
    (s : State) : State :=
  let c : Registration := { id := id, ctorId := ctorId }
  match toPhase instantiation with
  | some phase =>
    if s.started = true ∧ instantiation.toNat ≤ s.lifecyclePhase.toNat then
      safeCreateContribution cf c phase s
    else
      registerById id c { s with contributionsByPhase := pushByPhase s.contributionsByPhase phase c }
  | none => registerById id c s

/-- The deprecated `registerWorkbenchContribution`. -/
def registerWorkbenchContribution (cf : Nat → Bool) (ctorId : Nat)
    (phase : LifecyclePhase) (s : State) : State :=
  registerWorkbenchContribution2 cf none ctorId (toInstantiation phase) s

/-- `getWorkbenchContribution`: cached instance, the three error cases,
or forced construction at the current lifecycle phase. -/
def getWorkbenchContribution (cf : Nat → Bool) (id : String) (s : State) :
    State × Except GetError Nat :=
  match lookupA s.instancesById id with
  | some inst => (s, Except.ok inst)
  | none =>
    if s.started = false then (s, Except.error GetError.notStarted)
    else
      match lookupA s.contributionsById id with
      | none => (s, Except.error GetError.unknown)
      | some c =>
        let s1 :=
          if s.lifecyclePhase.toNat < LifecyclePhase.Restored.toNat then
            { s with log := s.log ++ [LogEvent.earlyGet id] }
          else s
        let s2 := safeCreateContribution cf c s1.lifecyclePhase s1
        match lookupA s2.instancesById id with
        | none => (s2, Except.error GetError.failedToCreate)
        | some inst => (s2, Except.ok inst)

/-- The observable events driving a run: registrations and lookups from
clients, `start`, external lifecycle-phase advances, and the idle
scheduler granting one slice (`idx` selects among the scheduled idle
callbacks, `budget` models the slice deadline). -/
inductive Event
  | register (id : Option String) (ctorId : Nat)
      (instantiation : WorkbenchContributionInstantiation)
  | registerLegacy (ctorId : Nat) (phase : LifecyclePhase)
  | start
  | advance (phase : LifecyclePhase)
  | runIdle (idx budget : Nat)
  | getContribution (id : String)

/-- One step of the cooperative event loop. -/
def step (cf : Nat → Bool) (s : State) : Event → State
  | .register id ctorId inst => registerWorkbenchContribution2 cf id ctorId inst s
  | .registerLegacy ctorId phase => registerWorkbenchContribution cf ctorId phase s
  | .start => start cf s
  | .advance p => advancePhase cf p s
  | .runIdle idx budget =>
    match s.idleTasks.get? idx with
    | some t => runIdleTask cf t budget { s with idleTasks := s.idleTasks.eraseIdx idx }
    | none => s
  | .getContribution id => (getWorkbenchContribution cf id s).1

/-- A whole run from the fresh registry. -/
def run (cf : Nat → Bool) (events : List Event) : State :=
  events.foldl (step cf) initState

/-- Well-formedness of a scheduled idle callback: its batch phase is one
of the two idle-dispatched phases, its forced timeout is the
phase-appropriate constant, and its index never exceeds its batch. -/
def TaskOk (t : IdleTask) : Prop :=
  (t.phase = .Restored ∨ t.phase = .Eventually) ∧
  t.forcedTimeout = (if t.phase = .Eventually then 3000 else 500) ∧
  t.i ≤ t.contributions.length

/-- The reachable-state invariant: the Restored signal is never
rejected, all scheduled idle callbacks are well-formed, an
Eventually-phase idle callback can only be scheduled once the Restored
signal completed, and every by-id binding stores a registration
carrying that id. -/
def Inv (s : State) : Prop :=
  s.restoredSignal ≠ .rejected ∧
  (∀ t ∈ s.idleTasks, TaskOk t) ∧
  (∀ t ∈ s.idleTasks, t.phase = .Eventually → s.restoredSignal = .completed) ∧
  (∀ p ∈ s.contributionsById, p.2.id = some p.1)

/-- An instantiation service whose factories never throw. -/
def cfNone : Nat → Bool := fun _ => false

/-- An instantiation service where exactly constructor `0` throws. -/
def cfZero : Nat → Bool := fun n => n == 0

/-- An instantiation service whose factories always throw. -/
def cfAll : Nat → Bool := fun _ => true

/-! ## Basic lemmas about the small map structures -/

@[simp] theorem PhaseMap.get_set_self (m : PhaseMap α) (p : LifecyclePhase) (v : α) :
    (m.set p v).get p = some v := by
  cases p <;> rfl

@[simp] theorem PhaseMap.get_delete_self (m : PhaseMap α) (p : LifecyclePhase) :
    (m.delete p).get p = none := by
  cases p <;> rfl

theorem PhaseMap.get_set_ne (m : PhaseMap α) {p q : LifecyclePhase} (v : α) (h : p ≠ q) :
    (m.set p v).get q = m.get q := by
  cases p <;> cases q <;> first | rfl | exact absurd rfl h

theorem lookupA_setA_self (l : List (String × α)) (k : String) (v : α) :
    lookupA (setA l k v) k = some v := by
  induction l with
  | nil => simp [setA, lookupA]
  | cons p t ih =>
    obtain ⟨k1, v1⟩ := p
    by_cases hk : k1 = k
    · simp [setA, lookupA, hk]
    · simp [setA, lookupA, hk, ih]

theorem lookupA_setA_ne (l : List (String × α)) {k k2 : String} (v : α) (h : k2 ≠ k) :
    lookupA (setA l k2 v) k = lookupA l k := by
  induction l with
  | nil => simp [setA, lookupA, h]
  | cons p t ih =>
    obtain ⟨k1, v1⟩ := p
    by_cases hk : k1 = k2
    · subst hk
      simp [setA, lookupA, h]
    · simp [setA, lookupA, hk, ih]

theorem lookupA_setA_of_none (l : List (String × α)) {k k2 : String} {v : α} (v2 : α)
    (h1 : lookupA l k = some v) (h2 : lookupA l k2 = none) :
    lookupA (setA l k2 v2) k = some v := by
  have hne : k2 ≠ k := by
    intro he
    subst he
    rw [h1] at h2
    cases h2
  rw [lookupA_setA_ne l v2 hne, h1]

theorem mem_setA {p : String × α} {l : List (String × α)} {k : String} {v : α}
    (h : p ∈ setA l k v) : p ∈ l ∨ p = (k, v) := by
  induction l with
  | nil =>
    simp [setA] at h
    exact Or.inr h
  | cons q t ih =>
    obtain ⟨k1, v1⟩ := q
    by_cases hk : k1 = k
    · simp only [setA, if_pos hk, List.mem_cons] at h
      rcases h with h | h
      · exact Or.inr h
      · exact Or.inl (List.mem_cons_of_mem _ h)
    · simp only [setA, if_neg hk, List.mem_cons] at h
      rcases h with h | h
      · exact Or.inl (by simp [h])
      · rcases ih h with h' | h'
        · exact Or.inl (List.mem_cons_of_mem _ h')
        · exact Or.inr h'

theorem mem_deleteA {p : String × α} {l : List (String × α)} {k : String}
    (h : p ∈ deleteA l k) : p ∈ l := by
  induction l with
  | nil => simp [deleteA] at h
  | cons q t ih =>
    obtain ⟨k1, v1⟩ := q
    by_cases hk : k1 = k
    · simp only [deleteA, if_pos hk] at h
      exact List.mem_cons_of_mem _ h
    · simp only [deleteA, if_neg hk, List.mem_cons] at h
      rcases h with h | h
      · simp [h]
      · exact List.mem_cons_of_mem _ (ih h)

/-! ## Frame lemmas: which state fields each operation leaves untouched -/

section Frames

variable (cf : Nat → Bool) (c : Registration) (phase : LifecyclePhase) (s : State)

theorem createNow_frame :
    (createNow cf c s).lifecyclePhase = s.lifecyclePhase ∧
    (createNow cf c s).started = s.started ∧
    (createNow cf c s).isBuilt = s.isBuilt ∧
    (createNow cf c s).contributionsByPhase = s.contributionsByPhase ∧
    (createNow cf c s).timingsByPhase = s.timingsByPhase ∧
    (createNow cf c s).restoredSignal = s.restoredSignal ∧
    (createNow cf c s).eventuallyWaiting = s.eventuallyWaiting ∧
    (createNow cf c s).phaseWaiters = s.phaseWaiters ∧
    (createNow cf c s).idleTasks = s.idleTasks := by
  unfold createNow
  cases hcf : cf c.ctorId <;> cases c.id <;> simp

theorem recordTiming_frame :
    (recordTiming c phase s).lifecyclePhase = s.lifecyclePhase ∧
    (recordTiming c phase s).started = s.started ∧
    (recordTiming c phase s).isBuilt = s.isBuilt ∧
    (recordTiming c phase s).contributionsByPhase = s.contributionsByPhase ∧
    (recordTiming c phase s).contributionsById = s.contributionsById ∧
    (recordTiming c phase s).instancesById = s.instancesById ∧
    (recordTiming c phase s).restoredSignal = s.restoredSignal ∧
    (recordTiming c phase s).eventuallyWaiting = s.eventuallyWaiting ∧
    (recordTiming c phase s).phaseWaiters = s.phaseWaiters ∧
    (recordTiming c phase s).idleTasks = s.idleTasks ∧
    (recordTiming c phase s).nextInstance = s.nextInstance ∧
    (recordTiming c phase s).created = s.created ∧
    (recordTiming c phase s).log = s.log := by
  unfold recordTiming
  cases c.id <;> simp

@[simp] theorem safeCreate_lifecyclePhase :
    (safeCreateContribution cf c phase s).lifecyclePhase = s.lifecyclePhase := by
  unfold safeCreateContribution
  split
  · rfl
  · rw [(recordTiming_frame c phase _).1, (createNow_frame cf c s).1]

@[simp] theorem safeCreate_started :
    (safeCreateContribution cf c phase s).started = s.started := by
  unfold safeCreateContribution
  split
  · rfl
  · rw [(recordTiming_frame c phase _).2.1, (createNow_frame cf c s).2.1]

@[simp] theorem safeCreate_isBuilt :
    (safeCreateContribution cf c phase s).isBuilt = s.isBuilt := by
  unfold safeCreateContribution
  split
  · rfl
  · rw [(recordTiming_frame c phase _).2.2.1, (createNow_frame cf c s).2.2.1]

@[simp] theorem safeCreate_contributionsByPhase :
    (safeCreateContribution cf c phase s).contributionsByPhase = s.contributionsByPhase := by
  unfold safeCreateContribution
  split
  · rfl
  · rw [(recordTiming_frame c phase _).2.2.2.1, (createNow_frame cf c s).2.2.2.1]

@[simp] theorem safeCreate_restoredSignal :
    (safeCreateContribution cf c phase s).restoredSignal = s.restoredSignal := by
  unfold safeCreateContribution
  split
  · rfl
  · rw [(recordTiming_frame c phase _).2.2.2.2.2.2.1, (createNow_frame cf c s).2.2.2.2.2.1]

@[simp] theorem safeCreate_eventuallyWaiting :
    (safeCreateContribution cf c phase s).eventuallyWaiting = s.eventuallyWaiting := by
  unfold safeCreateContribution
  split
  · rfl
  · rw [(recordTiming_frame c phase _).2.2.2.2.2.2.2.1, (createNow_frame cf c s).2.2.2.2.2.2.1]

@[simp] theorem safeCreate_phaseWaiters :
    (safeCreateContribution cf c phase s).phaseWaiters = s.phaseWaiters := by
  unfold safeCreateContribution
  split
  · rfl
  · rw [(recordTiming_frame c phase _).2.2.2.2.2.2.2.2.1, (createNow_frame cf c s).2.2.2.2.2.2.2.1]

@[simp] theorem safeCreate_idleTasks :
    (safeCreateContribution cf c phase s).idleTasks = s.idleTasks := by
  unfold safeCreateContribution
  split
  · rfl
  · rw [(recordTiming_frame c phase _).2.2.2.2.2.2.2.2.2.1, (createNow_frame cf c s).2.2.2.2.2.2.2.2]

end Frames

/-! ## Preservation combinators -/

theorem foldl_pres {α : Type} {P : State → Prop} {f : State → α → State}
    (h : ∀ s a, P s → P (f s a)) :
    ∀ (l : List α) (s : State), P s → P (l.foldl f s) := by
  intro l
  induction l with
  | nil => intro s hs; simpa using hs
  | cons a t ih =>
    intro s hs
    simpa using ih _ (h s a hs)

theorem instantiateSome_pres {cf : Nat → Bool} {contribs : List Registration}
    {phase : LifecyclePhase} {P : State → Prop}
    (h : ∀ s c, P s → P (safeCreateContribution cf c phase s)) :
    ∀ b i s, P s → P (instantiateSome cf contribs phase b i s).1 := by
  intro b
  induction b with
  | zero =>
    intro i s hs
    unfold instantiateSome
    split
    · exact h _ _ hs
    · exact hs
  | succ n ih =>
    intro i s hs
    unfold instantiateSome
    split
    · exact ih _ _ (h _ _ hs)
    · exact hs

/-- Any state projection untouched by `safeCreateContribution` is
untouched by a whole inline batch. -/
theorem foldl_safeCreate_proj {β : Type} {cf : Nat → Bool} {phase : LifecyclePhase}
    (g : State → β) (hg : ∀ s c, g (safeCreateContribution cf c phase s) = g s)
    (l : List Registration) (s : State) :
    g (l.foldl (fun acc c => safeCreateContribution cf c phase acc) s) = g s :=
  foldl_pres (P := fun t => g t = g s)
    (fun s' c hp => by dsimp only at hp ⊢; rw [hg s' c]; exact hp) l s rfl

/-- Any state projection untouched by `safeCreateContribution` is
untouched by one idle slice body. -/
theorem instantiateSome_proj {β : Type} {cf : Nat → Bool} {contribs : List Registration}
    {phase : LifecyclePhase} (g : State → β)
    (hg : ∀ s c, g (safeCreateContribution cf c phase s) = g s)
    (b i : Nat) (s : State) :
    g (instantiateSome cf contribs phase b i s).1 = g s :=
  instantiateSome_pres (P := fun t => g t = g s)
    (fun s' c hp => by dsimp only at hp ⊢; rw [hg s' c]; exact hp) b i s rfl

/-! ## The index and reschedule behaviour of one idle slice -/

/-- Characterization of one `instantiateSome` slice: the batch index
advances one descriptor at a time up to `min (i + budget + 1) length`,
and the slice reschedules itself exactly when the deadline expired
after a creation, i.e. when `i + budget + 1 ≤ length` — even when the
creation that exhausted the deadline was the batch's last. -/
theorem instantiateSome_snd (cf : Nat → Bool) (contribs : List Registration)
    (phase : LifecyclePhase) :
    ∀ b i s,
      (instantiateSome cf contribs phase b i s).2.1 =
        (if i < contribs.length then min (i + b + 1) contribs.length else i) ∧
      (instantiateSome cf contribs phase b i s).2.2 =
        decide (i + b + 1 ≤ contribs.length) := by
  intro b
  induction b with
  | zero =>
    intro i s
    unfold instantiateSome
    split
    · next h =>
      refine ⟨?_, ?_⟩
      · simp only [if_pos h]
        omega
      · simp only []
        have : i + 0 + 1 ≤ contribs.length := by omega
        simp [this]
    · next h =>
      refine ⟨by simp [h], ?_⟩
      have : ¬ (i + 0 + 1 ≤ contribs.length) := by omega
      simp [this]
  | succ n ih =>
    intro i s
    unfold instantiateSome
    split
    · next h =>
      obtain ⟨h1, h2⟩ := ih (i + 1) (safeCreateContribution cf (contribs.get ⟨i, h⟩) phase s)
      refine ⟨?_, ?_⟩
      · rw [h1]
        split <;> omega
      · rw [h2]
        have he : i + 1 + n + 1 = i + (n + 1) + 1 := by omega
        rw [he]
    · next h =>
      refine ⟨by simp [h], ?_⟩
      have hn : ¬ (i + (n + 1) + 1 ≤ contribs.length) := by omega
      simp [hn]

section SliceProj

variable (cf : Nat → Bool) (contribs : List Registration) (phase : LifecyclePhase)
variable (b i : Nat) (s : State)

@[simp] theorem instantiateSome_restoredSignal :
    (instantiateSome cf contribs phase b i s).1.restoredSignal = s.restoredSignal :=
  instantiateSome_proj (g := State.restoredSignal) (fun s' c => safeCreate_restoredSignal cf c phase s') b i s

@[simp] theorem instantiateSome_idleTasks :
    (instantiateSome cf contribs phase b i s).1.idleTasks = s.idleTasks :=
  instantiateSome_proj (g := State.idleTasks) (fun s' c => safeCreate_idleTasks cf c phase s') b i s

@[simp] theorem instantiateSome_eventuallyWaiting :
    (instantiateSome cf contribs phase b i s).1.eventuallyWaiting = s.eventuallyWaiting :=
  instantiateSome_proj (g := State.eventuallyWaiting) (fun s' c => safeCreate_eventuallyWaiting cf c phase s') b i s

@[simp] theorem instantiateSome_phaseWaiters :
    (instantiateSome cf contribs phase b i s).1.phaseWaiters = s.phaseWaiters :=
  instantiateSome_proj (g := State.phaseWaiters) (fun s' c => safeCreate_phaseWaiters cf c phase s') b i s

@[simp] theorem instantiateSome_lifecyclePhase :
    (instantiateSome cf contribs phase b i s).1.lifecyclePhase = s.lifecyclePhase :=
  instantiateSome_proj (g := State.lifecyclePhase) (fun s' c => safeCreate_lifecyclePhase cf c phase s') b i s

@[simp] theorem instantiateSome_started :
    (instantiateSome cf contribs phase b i s).1.started = s.started :=
  instantiateSome_proj (g := State.started) (fun s' c => safeCreate_started cf c phase s') b i s

@[simp] theorem instantiateSome_contributionsByPhase :
    (instantiateSome cf contribs phase b i s).1.contributionsByPhase = s.contributionsByPhase :=
  instantiateSome_proj (g := State.contributionsByPhase) (fun s' c => safeCreate_contributionsByPhase cf c phase s') b i s

end SliceProj

section WhenIdleProj

variable (l : List Registration) (p : LifecyclePhase) (s : State)

@[simp] theorem doInstantiateWhenIdle_lifecyclePhase :
    (doInstantiateWhenIdle l p s).lifecyclePhase = s.lifecyclePhase := rfl

@[simp] theorem doInstantiateWhenIdle_started :
    (doInstantiateWhenIdle l p s).started = s.started := rfl

@[simp] theorem doInstantiateWhenIdle_isBuilt :
    (doInstantiateWhenIdle l p s).isBuilt = s.isBuilt := rfl

@[simp] theorem doInstantiateWhenIdle_contributionsByPhase :
    (doInstantiateWhenIdle l p s).contributionsByPhase = s.contributionsByPhase := rfl

@[simp] theorem doInstantiateWhenIdle_contributionsById :
    (doInstantiateWhenIdle l p s).contributionsById = s.contributionsById := rfl

@[simp] theorem doInstantiateWhenIdle_instancesById :
    (doInstantiateWhenIdle l p s).instancesById = s.instancesById := rfl

@[simp] theorem doInstantiateWhenIdle_timingsByPhase :
    (doInstantiateWhenIdle l p s).timingsByPhase = s.timingsByPhase := rfl

@[simp] theorem doInstantiateWhenIdle_restoredSignal :
    (doInstantiateWhenIdle l p s).restoredSignal = s.restoredSignal := rfl

@[simp] theorem doInstantiateWhenIdle_eventuallyWaiting :
    (doInstantiateWhenIdle l p s).eventuallyWaiting = s.eventuallyWaiting := rfl

@[simp] theorem doInstantiateWhenIdle_phaseWaiters :
    (doInstantiateWhenIdle l p s).phaseWaiters = s.phaseWaiters := rfl

@[simp] theorem doInstantiateWhenIdle_nextInstance :
    (doInstantiateWhenIdle l p s).nextInstance = s.nextInstance := rfl

@[simp] theorem doInstantiateWhenIdle_created :
    (doInstantiateWhenIdle l p s).created = s.created := rfl

@[simp] theorem doInstantiateWhenIdle_log :
    (doInstantiateWhenIdle l p s).log = s.log := rfl

@[simp] theorem doInstantiateWhenIdle_idleTasks :
    (doInstantiateWhenIdle l p s).idleTasks =
      s.idleTasks ++ [⟨l, 0, p, if p = .Eventually then 3000 else 500⟩] := rfl

end WhenIdleProj

section CompleteProj

variable (s : State)

@[simp] theorem completeRestored_lifecyclePhase :
    (completeRestored s).lifecyclePhase = s.lifecyclePhase := by
  unfold completeRestored
  split
  · cases hev : s.eventuallyWaiting <;> simp [hev]
  · rfl

@[simp] theorem completeRestored_started :
    (completeRestored s).started = s.started := by
  unfold completeRestored
  split
  · cases hev : s.eventuallyWaiting <;> simp [hev]
  · rfl

@[simp] theorem completeRestored_phaseWaiters :
    (completeRestored s).phaseWaiters = s.phaseWaiters := by
  unfold completeRestored
  split
  · cases hev : s.eventuallyWaiting <;> simp [hev]
  · rfl

@[simp] theorem completeRestored_contributionsByPhase :
    (completeRestored s).contributionsByPhase = s.contributionsByPhase := by
  unfold completeRestored
  split
  · cases hev : s.eventuallyWaiting <;> simp [hev]
  · rfl

@[simp] theorem completeRestored_contributionsById :
    (completeRestored s).contributionsById = s.contributionsById := by
  unfold completeRestored
  split
  · cases hev : s.eventuallyWaiting <;> simp [hev]
  · rfl

@[simp] theorem completeRestored_instancesById :
    (completeRestored s).instancesById = s.instancesById := by
  unfold completeRestored
  split
  · cases hev : s.eventuallyWaiting <;> simp [hev]
  · rfl

@[simp] theorem completeRestored_created :
    (completeRestored s).created = s.created := by
  unfold completeRestored
  split
  · cases hev : s.eventuallyWaiting <;> simp [hev]
  · rfl

@[simp] theorem completeRestored_log :
    (completeRestored s).log = s.log := by
  unfold completeRestored
  split
  · cases hev : s.eventuallyWaiting <;> simp [hev]
  · rfl

/-- The Restored signal after `complete()`: it either was already
settled (no-op) or transitions pending-to-completed; it can never
become rejected. -/
theorem completeRestored_signal :
    (completeRestored s).restoredSignal = s.restoredSignal ∨
      (s.restoredSignal = .pending ∧ (completeRestored s).restoredSignal = .completed) := by
  unfold completeRestored
  split
  · next h =>
    refine Or.inr ⟨h, ?_⟩
    cases hev : s.eventuallyWaiting <;> simp [hev]
  · exact Or.inl rfl

theorem completeRestored_signal_of_completed (h : s.restoredSignal = .completed) :
    (completeRestored s).restoredSignal = .completed := by
  rcases completeRestored_signal s with h2 | h2
  · rw [h2, h]
  · exact h2.2

theorem completeRestored_signal_of_not_rejected (h : s.restoredSignal ≠ .rejected) :
    (completeRestored s).restoredSignal = .completed := by
  rcases completeRestored_signal s with h2 | h2
  · rw [h2]
    unfold completeRestored at h2
    cases hs : s.restoredSignal with
    | pending =>
      rw [if_pos hs] at h2
      cases hev : s.eventuallyWaiting <;> simp [hev, hs] at h2
    | completed => rfl
    | rejected => exact absurd hs h
  · exact h2.2

end CompleteProj

section DispatchProj

variable (cf : Nat → Bool) (phase : LifecyclePhase) (s : State)

@[simp] theorem doInstantiateByPhase_lifecyclePhase :
    (doInstantiateByPhase cf phase s).lifecyclePhase = s.lifecyclePhase := by
  unfold doInstantiateByPhase
  split
  · rfl
  · cases phase <;>
      try simp [foldl_safeCreate_proj (g := State.lifecyclePhase)
        (fun s2 c => safeCreate_lifecyclePhase cf c _ s2)]
    cases hsig : s.restoredSignal <;> simp [hsig]

@[simp] theorem doInstantiateByPhase_started :
    (doInstantiateByPhase cf phase s).started = s.started := by
  unfold doInstantiateByPhase
  split
  · rfl
  · cases phase <;>
      try simp [foldl_safeCreate_proj (g := State.started)
        (fun s2 c => safeCreate_started cf c _ s2)]
    cases hsig : s.restoredSignal <;> simp [hsig]

@[simp] theorem doInstantiateByPhase_phaseWaiters :
    (doInstantiateByPhase cf phase s).phaseWaiters = s.phaseWaiters := by
  unfold doInstantiateByPhase
  split
  · rfl
  · cases phase <;>
      try simp [foldl_safeCreate_proj (g := State.phaseWaiters)
        (fun s2 c => safeCreate_phaseWaiters cf c _ s2)]
    cases hsig : s.restoredSignal <;> simp [hsig]

@[simp] theorem doInstantiateByPhase_restoredSignal :
    (doInstantiateByPhase cf phase s).restoredSignal = s.restoredSignal := by
  unfold doInstantiateByPhase
  split
  · rfl
  · cases phase <;>
      try simp [foldl_safeCreate_proj (g := State.restoredSignal)
        (fun s2 c => safeCreate_restoredSignal cf c _ s2)]
    cases hsig : s.restoredSignal <;> simp [hsig]

end DispatchProj

theorem lookupA_mem {l : List (String × α)} {k : String} {v : α}
    (h : lookupA l k = some v) : (k, v) ∈ l := by
  induction l with
  | nil => simp [lookupA] at h
  | cons q t ih =>
    obtain ⟨k1, v1⟩ := q
    by_cases hk : k1 = k
    · subst hk
      have hv : v1 = v := by simpa [lookupA] using h
      subst hv
      simp
    · simp only [lookupA, if_neg hk] at h
      exact List.mem_cons_of_mem _ (ih h)

/-! ## Projection lemmas for registration and lookup -/

section RegisterProj

variable (cf : Nat → Bool) (id : Option String) (c : Registration) (ctorId : Nat)
variable (inst : WorkbenchContributionInstantiation) (s : State)

@[simp] theorem registerById_restoredSignal :
    (registerById id c s).restoredSignal = s.restoredSignal := by
  unfold registerById
  cases id
  · rfl
  · dsimp only
    split <;> rfl

@[simp] theorem registerById_idleTasks :
    (registerById id c s).idleTasks = s.idleTasks := by
  unfold registerById
  cases id
  · rfl
  · dsimp only
    split <;> rfl

@[simp] theorem registerById_eventuallyWaiting :
    (registerById id c s).eventuallyWaiting = s.eventuallyWaiting := by
  unfold registerById
  cases id
  · rfl
  · dsimp only
    split <;> rfl

@[simp] theorem registerById_phaseWaiters :
    (registerById id c s).phaseWaiters = s.phaseWaiters := by
  unfold registerById
  cases id
  · rfl
  · dsimp only
    split <;> rfl

@[simp] theorem registerById_lifecyclePhase :
    (registerById id c s).lifecyclePhase = s.lifecyclePhase := by
  unfold registerById
  cases id
  · rfl
  · dsimp only
    split <;> rfl

@[simp] theorem registerById_started :
    (registerById id c s).started = s.started := by
  unfold registerById
  cases id
  · rfl
  · dsimp only
    split <;> rfl

@[simp] theorem registerById_created :
    (registerById id c s).created = s.created := by
  unfold registerById
  cases id
  · rfl
  · dsimp only
    split <;> rfl

@[simp] theorem registerById_instancesById :
    (registerById id c s).instancesById = s.instancesById := by
  unfold registerById
  cases id
  · rfl
  · dsimp only
    split <;> rfl

@[simp] theorem register2_restoredSignal :
    (registerWorkbenchContribution2 cf id ctorId inst s).restoredSignal = s.restoredSignal := by
  unfold registerWorkbenchContribution2
  cases htp : toPhase inst <;> simp only []
  · simp
  · split <;> simp

@[simp] theorem register2_idleTasks :
    (registerWorkbenchContribution2 cf id ctorId inst s).idleTasks = s.idleTasks := by
  unfold registerWorkbenchContribution2
  cases htp : toPhase inst <;> simp only []
  · simp
  · split <;> simp

@[simp] theorem register2_eventuallyWaiting :
    (registerWorkbenchContribution2 cf id ctorId inst s).eventuallyWaiting = s.eventuallyWaiting := by
  unfold registerWorkbenchContribution2
  cases htp : toPhase inst <;> simp only []
  · simp
  · split <;> simp

@[simp] theorem register2_phaseWaiters :
    (registerWorkbenchContribution2 cf id ctorId inst s).phaseWaiters = s.phaseWaiters := by
  unfold registerWorkbenchContribution2
  cases htp : toPhase inst <;> simp only []
  · simp
  · split <;> simp

@[simp] theorem register2_lifecyclePhase :
    (registerWorkbenchContribution2 cf id ctorId inst s).lifecyclePhase = s.lifecyclePhase := by
  unfold registerWorkbenchContribution2
  cases htp : toPhase inst <;> simp only []
  · simp
  · split <;> simp

@[simp] theorem register2_started :
    (registerWorkbenchContribution2 cf id ctorId inst s).started = s.started := by
  unfold registerWorkbenchContribution2
  cases htp : toPhase inst <;> simp only []
  · simp
  · split <;> simp

end RegisterProj

section GetProj

variable (cf : Nat → Bool) (id : String) (s : State)

@[simp] theorem getContribution_restoredSignal :
    (getWorkbenchContribution cf id s).1.restoredSignal = s.restoredSignal := by
  unfold getWorkbenchContribution
  cases hx : lookupA s.instancesById id
  · dsimp only
    split
    · rfl
    · cases hc : lookupA s.contributionsById id
      · rfl
      · dsimp only
        by_cases hph : s.lifecyclePhase.toNat < LifecyclePhase.Restored.toNat <;>
          simp only [hph, if_true, if_false, ite_true, ite_false] <;>
          split <;> simp
  · rfl

@[simp] theorem getContribution_idleTasks :
    (getWorkbenchContribution cf id s).1.idleTasks = s.idleTasks := by
  unfold getWorkbenchContribution
  cases hx : lookupA s.instancesById id
  · dsimp only
    split
    · rfl
    · cases hc : lookupA s.contributionsById id
      · rfl
      · dsimp only
        by_cases hph : s.lifecyclePhase.toNat < LifecyclePhase.Restored.toNat <;>
          simp only [hph, if_true, if_false, ite_true, ite_false] <;>
          split <;> simp
  · rfl

@[simp] theorem getContribution_eventuallyWaiting :
    (getWorkbenchContribution cf id s).1.eventuallyWaiting = s.eventuallyWaiting := by
  unfold getWorkbenchContribution
  cases hx : lookupA s.instancesById id
  · dsimp only
    split
    · rfl
    · cases hc : lookupA s.contributionsById id
      · rfl
      · dsimp only
        by_cases hph : s.lifecyclePhase.toNat < LifecyclePhase.Restored.toNat <;>
          simp only [hph, if_true, if_false, ite_true, ite_false] <;>
          split <;> simp
  · rfl

@[simp] theorem getContribution_phaseWaiters :
    (getWorkbenchContribution cf id s).1.phaseWaiters = s.phaseWaiters := by
  unfold getWorkbenchContribution
  cases hx : lookupA s.instancesById id
  · dsimp only
    split
    · rfl
    · cases hc : lookupA s.contributionsById id
      · rfl
      · dsimp only
        by_cases hph : s.lifecyclePhase.toNat < LifecyclePhase.Restored.toNat <;>
          simp only [hph, if_true, if_false, ite_true, ite_false] <;>
          split <;> simp
  · rfl

@[simp] theorem getContribution_lifecyclePhase :
    (getWorkbenchContribution cf id s).1.lifecyclePhase = s.lifecyclePhase := by
  unfold getWorkbenchContribution
  cases hx : lookupA s.instancesById id
  · dsimp only
    split
    · rfl
    · cases hc : lookupA s.contributionsById id
      · rfl
      · dsimp only
        by_cases hph : s.lifecyclePhase.toNat < LifecyclePhase.Restored.toNat <;>
          simp only [hph, if_true, if_false, ite_true, ite_false] <;>
          split <;> simp
  · rfl

@[simp] theorem getContribution_started :
    (getWorkbenchContribution cf id s).1.started = s.started := by
  unfold getWorkbenchContribution
  cases hx : lookupA s.instancesById id
  · dsimp only
    split
    · rfl
    · cases hc : lookupA s.contributionsById id
      · rfl
      · dsimp only
        by_cases hph : s.lifecyclePhase.toNat < LifecyclePhase.Restored.toNat <;>
          simp only [hph, if_true, if_false, ite_true, ite_false] <;>
          split <;> simp
  · rfl

end GetProj

/-! ## Projection lemmas for the phase driver -/

section DriverProj

variable (cf : Nat → Bool) (phase : LifecyclePhase) (s : State)

@[simp] theorem instantiateByPhase_restoredSignal :
    (instantiateByPhase cf phase s).restoredSignal = s.restoredSignal := by
  unfold instantiateByPhase
  split <;> simp

@[simp] theorem instantiateByPhase_lifecyclePhase :
    (instantiateByPhase cf phase s).lifecyclePhase = s.lifecyclePhase := by
  unfold instantiateByPhase
  split <;> simp

@[simp] theorem instantiateByPhase_started :
    (instantiateByPhase cf phase s).started = s.started := by
  unfold instantiateByPhase
  split <;> simp

@[simp] theorem start_restoredSignal :
    (start cf s).restoredSignal = s.restoredSignal := by
  simp [start, List.foldl]

@[simp] theorem start_lifecyclePhase :
    (start cf s).lifecyclePhase = s.lifecyclePhase := by
  simp [start, List.foldl]

@[simp] theorem firePhaseWaiters_restoredSignal :
    (firePhaseWaiters cf s).restoredSignal = s.restoredSignal :=
  foldl_pres (P := fun t => t.restoredSignal = s.restoredSignal)
    (fun s2 p hp => by dsimp only; split <;> simp [hp])
    [LifecyclePhase.Starting, .Ready, .Restored, .Eventually] s rfl

@[simp] theorem firePhaseWaiters_lifecyclePhase :
    (firePhaseWaiters cf s).lifecyclePhase = s.lifecyclePhase :=
  foldl_pres (P := fun t => t.lifecyclePhase = s.lifecyclePhase)
    (fun s2 p hp => by dsimp only; split <;> simp [hp])
    [LifecyclePhase.Starting, .Ready, .Restored, .Eventually] s rfl

@[simp] theorem firePhaseWaiters_started :
    (firePhaseWaiters cf s).started = s.started :=
  foldl_pres (P := fun t => t.started = s.started)
    (fun s2 p hp => by dsimp only; split <;> simp [hp])
    [LifecyclePhase.Starting, .Ready, .Restored, .Eventually] s rfl

@[simp] theorem advancePhase_restoredSignal :
    (advancePhase cf phase s).restoredSignal = s.restoredSignal := by
  unfold advancePhase
  split <;> simp

end DriverProj

/-! ## How one event can move the Restored signal -/

theorem runIdleTask_signal (cf : Nat → Bool) (t : IdleTask) (budget : Nat) (s : State) :
    (runIdleTask cf t budget s).restoredSignal = s.restoredSignal ∨
      (s.restoredSignal = .pending ∧ (runIdleTask cf t budget s).restoredSignal = .completed) := by
  have h1 := instantiateSome_restoredSignal cf t.contributions t.phase budget t.i s
  simp only [runIdleTask]
  set r := instantiateSome cf t.contributions t.phase budget t.i s with hr
  clear_value r
  obtain ⟨s1, i2, resched⟩ := r
  simp only at h1
  have hs2 : (if resched = true then
      { s1 with idleTasks := s1.idleTasks ++ [{ t with i := i2 }] } else s1).restoredSignal
      = s.restoredSignal := by
    split <;> simpa using h1
  split
  · split
    · rcases completeRestored_signal _ with hh | hh
      · exact Or.inl (hh.trans hs2)
      · exact Or.inr ⟨hs2 ▸ hh.1, hh.2⟩
    · exact Or.inl hs2
  · exact Or.inl hs2

/-- The only event that can move the Restored signal is an idle slice
completing the Restored batch, and the only move is
pending-to-completed. -/
theorem step_signal (cf : Nat → Bool) (s : State) (e : Event) :
    (step cf s e).restoredSignal = s.restoredSignal ∨
      (s.restoredSignal = .pending ∧ (step cf s e).restoredSignal = .completed) := by
  cases e with
  | register id ctorId inst => exact Or.inl (by simp [step])
  | registerLegacy ctorId phase =>
    exact Or.inl (by simp [step, registerWorkbenchContribution])
  | start => exact Or.inl (by simp [step])
  | advance p => exact Or.inl (by simp [step])
  | getContribution id => exact Or.inl (by simp [step])
  | runIdle idx budget =>
    simp only [step]
    cases hx : s.idleTasks.get? idx
    · exact Or.inl rfl
    · next t =>
      rcases runIdleTask_signal cf t budget { s with idleTasks := s.idleTasks.eraseIdx idx }
        with hh | hh
      · exact Or.inl hh
      · exact Or.inr hh

theorem step_signal_completed {cf : Nat → Bool} {s : State} (e : Event)
    (h : s.restoredSignal = .completed) :
    (step cf s e).restoredSignal = .completed := by
  rcases step_signal cf s e with hh | hh
  · rw [hh, h]
  · rw [h] at hh
    cases hh.1

theorem step_signal_not_rejected {cf : Nat → Bool} {s : State} (e : Event)
    (h : s.restoredSignal ≠ .rejected) :
    (step cf s e).restoredSignal ≠ .rejected := by
  rcases step_signal cf s e with hh | hh
  · rw [hh]; exact h
  · rw [hh.2]; intro hc; cases hc

/-! ## Fine-grained behaviour of `safeCreateContribution` -/

section SafeCreate

variable {cf : Nat → Bool} {c : Registration} {phase : LifecyclePhase} {s : State}

@[simp] theorem recordTiming_contributionsById (c : Registration) (phase : LifecyclePhase) (s : State) :
    (recordTiming c phase s).contributionsById = s.contributionsById :=
  (recordTiming_frame c phase s).2.2.2.2.1

@[simp] theorem recordTiming_instancesById (c : Registration) (phase : LifecyclePhase) (s : State) :
    (recordTiming c phase s).instancesById = s.instancesById :=
  (recordTiming_frame c phase s).2.2.2.2.2.1

@[simp] theorem recordTiming_created (c : Registration) (phase : LifecyclePhase) (s : State) :
    (recordTiming c phase s).created = s.created :=
  (recordTiming_frame c phase s).2.2.2.2.2.2.2.2.2.2.2.1

@[simp] theorem recordTiming_log (c : Registration) (phase : LifecyclePhase) (s : State) :
    (recordTiming c phase s).log = s.log :=
  (recordTiming_frame c phase s).2.2.2.2.2.2.2.2.2.2.2.2

@[simp] theorem recordTiming_nextInstance (c : Registration) (phase : LifecyclePhase) (s : State) :
    (recordTiming c phase s).nextInstance = s.nextInstance :=
  (recordTiming_frame c phase s).2.2.2.2.2.2.2.2.2.2.1

theorem createNow_created (cf : Nat → Bool) (c : Registration) (s : State) :
    (createNow cf c s).created = s.created ++ [c.ctorId] := by
  unfold createNow
  cases hcf : cf c.ctorId <;> cases hid : c.id <;> simp [hcf, hid]

/-- When the guard fires (an instance is already cached under the
registration's id), `safeCreateContribution` is a complete no-op. -/
theorem safeCreate_of_cached {i : String} (hid : c.id = some i)
    (hc : (lookupA s.instancesById i).isSome) :
    safeCreateContribution cf c phase s = s := by
  unfold safeCreateContribution idCached
  rw [hid]
  dsimp only
  rw [if_pos hc]

/-- When the guard does not fire, the factory is invoked (appended to
the `created` trace), the pending-by-phase store is untouched, and on
success the fresh instance token lands in the cache under the id. -/
theorem safeCreate_not_cached (hg : idCached c s = false) :
    (safeCreateContribution cf c phase s).created = s.created ++ [c.ctorId] ∧
    (safeCreateContribution cf c phase s).contributionsByPhase = s.contributionsByPhase ∧
    (cf c.ctorId = false → ∀ i, c.id = some i →
      lookupA (safeCreateContribution cf c phase s).instancesById i = some s.nextInstance) := by
  unfold safeCreateContribution
  rw [hg]
  simp only [Bool.false_eq_true, if_false]
  refine ⟨?_, ?_, ?_⟩
  · rw [recordTiming_created, createNow_created]
  · rw [(recordTiming_frame c phase _).2.2.2.1, (createNow_frame cf c s).2.2.2.1]
  · intro hcf i hid
    rw [recordTiming_instancesById]
    unfold createNow
    rw [hcf, hid]
    simp only [Bool.false_eq_true, if_false]
    have hfresh : lookupA s.instancesById i = none := by
      unfold idCached at hg
      rw [hid] at hg
      dsimp only at hg
      cases hx : lookupA s.instancesById i
      · rfl
      · rw [hx] at hg
        simp at hg
    exact lookupA_setA_self _ i _

/-- The instance cache and pending-by-id index after an uncached
creation attempt with an id: on failure both are untouched, on success
the instance is cached and the by-id entry retired. -/
theorem safeCreate_instances_of_fresh {i : String} (hid : c.id = some i)
    (hfresh : lookupA s.instancesById i = none) :
    (safeCreateContribution cf c phase s).instancesById =
      (if cf c.ctorId then s.instancesById else setA s.instancesById i s.nextInstance) ∧
    (safeCreateContribution cf c phase s).contributionsById =
      (if cf c.ctorId then s.contributionsById else deleteA s.contributionsById i) ∧
    (safeCreateContribution cf c phase s).created = s.created ++ [c.ctorId] := by
  unfold safeCreateContribution idCached
  rw [hid]
  dsimp only
  rw [hfresh]
  simp only [Option.isSome_none, Bool.false_eq_true, if_false]
  refine ⟨?_, ?_, by rw [recordTiming_created, createNow_created]⟩ <;>
    · simp only [recordTiming_instancesById, recordTiming_contributionsById]
      unfold createNow
      cases hcf : cf c.ctorId <;> simp [hcf, hid]

/-- The pending-by-id index never grows through `safeCreateContribution`. -/
theorem safeCreate_byId_sub {p : String × Registration}
    (h : p ∈ (safeCreateContribution cf c phase s).contributionsById) :
    p ∈ s.contributionsById := by
  unfold safeCreateContribution at h
  split at h
  · exact h
  · rw [recordTiming_contributionsById] at h
    unfold createNow at h
    cases hcf : cf c.ctorId <;> rw [hcf] at h <;> simp only [Bool.false_eq_true, if_false, if_true] at h
    · cases hid : c.id <;> rw [hid] at h
      · exact h
      · exact mem_deleteA h
    · exact h

/-- The instance cache is persistent: an existing binding survives any
`safeCreateContribution` call. -/
theorem safeCreate_cache_persistent {k : String} {v : Nat}
    (h : lookupA s.instancesById k = some v) :
    lookupA (safeCreateContribution cf c phase s).instancesById k = some v := by
  unfold safeCreateContribution idCached
  cases hid : c.id with
  | none =>
    simp only [Bool.false_eq_true, if_false, recordTiming_instancesById]
    unfold createNow
    cases hcf : cf c.ctorId <;> simp [hcf, hid, h]
  | some i =>
    dsimp only
    cases hx : (lookupA s.instancesById i).isSome
    · simp only [hx, Bool.false_eq_true, if_false, recordTiming_instancesById]
      unfold createNow
      cases hcf : cf c.ctorId <;> simp only [hcf, Bool.false_eq_true, if_false, if_true, hid]
      · have hnone : lookupA s.instancesById i = none := by
          cases hy : lookupA s.instancesById i
          · rfl
          · rw [hy] at hx
            simp at hx
        exact lookupA_setA_of_none _ _ h hnone
      · exact h
    · simp [hx, h]

end SafeCreate

/-! ## Preservation of the reachable-state invariant -/

section InvPres

variable {cf : Nat → Bool} {c : Registration} {phase : LifecyclePhase} {s : State}

theorem safeCreate_inv (h : Inv s) : Inv (safeCreateContribution cf c phase s) := by
  obtain ⟨h1, h2, h3, h4⟩ := h
  refine ⟨?_, ?_, ?_, ?_⟩
  · simpa using h1
  · intro t ht
    exact h2 t (by simpa using ht)
  · intro t ht hp
    simpa using h3 t (by simpa using ht) hp
  · intro p hp
    exact h4 p (safeCreate_byId_sub hp)

theorem push_inv (t2 : IdleTask) (h : Inv s) (hT : TaskOk t2)
    (hg : t2.phase = .Eventually → s.restoredSignal = .completed) :
    Inv { s with idleTasks := s.idleTasks ++ [t2] } := by
  obtain ⟨h1, h2, h3, h4⟩ := h
  refine ⟨h1, ?_, ?_, h4⟩
  · intro t ht
    simp only [List.mem_append, List.mem_singleton] at ht
    rcases ht with ht | ht
    · exact h2 t ht
    · subst ht
      exact hT
  · intro t ht hp
    simp only [List.mem_append, List.mem_singleton] at ht
    rcases ht with ht | ht
    · exact h3 t ht hp
    · subst ht
      exact hg hp

theorem whenIdle_inv {l : List Registration} {p : LifecyclePhase}
    (hph : p = .Restored ∨ p = .Eventually)
    (hg : p = .Eventually → s.restoredSignal = .completed) (h : Inv s) :
    Inv (doInstantiateWhenIdle l p s) :=
  push_inv ⟨l, 0, p, if p = .Eventually then 3000 else 500⟩ h
    ⟨hph, rfl, Nat.zero_le _⟩ hg

theorem completeRestored_inv (h : Inv s) : Inv (completeRestored s) := by
  unfold completeRestored
  split
  · have h1 : Inv { s with restoredSignal := SignalState.completed } :=
      ⟨fun hc => SignalState.noConfusion hc, h.2.1, fun t ht hp => rfl, h.2.2.2⟩
    dsimp only
    split
    · exact whenIdle_inv (Or.inr rfl) (fun _ => rfl)
        ⟨h1.1, h1.2.1, fun t ht hp => rfl, h1.2.2.2⟩
    · exact h1
  · exact h

theorem instantiateSome_inv {contribs : List Registration} (b i : Nat) (h : Inv s) :
    Inv (instantiateSome cf contribs phase b i s).1 :=
  instantiateSome_pres (fun _s2 _c2 h2 => safeCreate_inv h2) b i s h

theorem instantiateSome_i_le {contribs : List Registration} (b i : Nat) (s : State)
    (hi : i ≤ contribs.length) :
    (instantiateSome cf contribs phase b i s).2.1 ≤ contribs.length := by
  obtain ⟨h1, -⟩ := instantiateSome_snd cf contribs phase b i s
  rw [h1]
  split <;> omega

theorem runIdleTask_inv {t : IdleTask} {budget : Nat}
    (h : Inv s) (hT : TaskOk t) (hg : t.phase = .Eventually → s.restoredSignal = .completed) :
    Inv (runIdleTask cf t budget s) := by
  have hI1 : Inv (instantiateSome cf t.contributions t.phase budget t.i s).1 :=
    instantiateSome_inv budget t.i h
  have hsig1 : (instantiateSome cf t.contributions t.phase budget t.i s).1.restoredSignal
      = s.restoredSignal := by simp
  have hle : (instantiateSome cf t.contributions t.phase budget t.i s).2.1
      ≤ t.contributions.length :=
    instantiateSome_i_le budget t.i s hT.2.2
  simp only [runIdleTask]
  set r := instantiateSome cf t.contributions t.phase budget t.i s with hr
  clear_value r
  obtain ⟨s1, i2, resched⟩ := r
  simp only at hI1 hsig1 hle
  have hs2 : Inv (if resched = true then
      { s1 with idleTasks := s1.idleTasks ++ [{ t with i := i2 }] } else s1) := by
    split
    · refine push_inv _ hI1 ⟨hT.1, hT.2.1, hle⟩ ?_
      intro hp
      rw [hsig1]
      exact hg hp
    · exact hI1
  split
  · split
    · exact completeRestored_inv hs2
    · exact hs2
  · exact hs2

theorem doInstantiateByPhase_inv {p : LifecyclePhase} (h : Inv s) :
    Inv (doInstantiateByPhase cf p s) := by
  unfold doInstantiateByPhase
  split
  · exact h
  · next contribs hget =>
    have h1 : Inv { s with contributionsByPhase := s.contributionsByPhase.delete p } :=
      ⟨h.1, h.2.1, h.2.2.1, h.2.2.2⟩
    cases p with
    | Starting => exact foldl_pres (fun s2 c2 h2 => safeCreate_inv h2) contribs _ h1
    | Ready => exact foldl_pres (fun s2 c2 h2 => safeCreate_inv h2) contribs _ h1
    | Restored => exact whenIdle_inv (Or.inl rfl) (fun hc => by cases hc) h1
    | Eventually =>
      dsimp only
      split
      · next hsig => exact whenIdle_inv (Or.inr rfl) (fun _ => hsig) h1
      · exact ⟨h1.1, h1.2.1, h1.2.2.1, h1.2.2.2⟩
      · exact h1

theorem instantiateByPhase_inv {p : LifecyclePhase} (h : Inv s) :
    Inv (instantiateByPhase cf p s) := by
  unfold instantiateByPhase
  split
  · exact doInstantiateByPhase_inv h
  · exact ⟨h.1, h.2.1, h.2.2.1, h.2.2.2⟩

theorem firePhaseWaiters_inv (h : Inv s) : Inv (firePhaseWaiters cf s) :=
  foldl_pres
    (fun _s2 _p h2 => by
      split
      · exact doInstantiateByPhase_inv ⟨h2.1, h2.2.1, h2.2.2.1, h2.2.2.2⟩
      · exact h2)
    [LifecyclePhase.Starting, .Ready, .Restored, .Eventually] s h

theorem advancePhase_inv {p : LifecyclePhase} (h : Inv s) : Inv (advancePhase cf p s) := by
  unfold advancePhase
  split
  · exact firePhaseWaiters_inv ⟨h.1, h.2.1, h.2.2.1, h.2.2.2⟩
  · exact h

theorem start_inv (h : Inv s) : Inv (start cf s) :=
  foldl_pres (fun _s2 _p h2 => instantiateByPhase_inv h2)
    [LifecyclePhase.Starting, .Ready, .Restored, .Eventually]
    { s with started := true } ⟨h.1, h.2.1, h.2.2.1, h.2.2.2⟩

theorem registerById_inv {id : Option String}
    (hc : ∀ i, id = some i → c.id = some i) (h : Inv s) :
    Inv (registerById id c s) := by
  unfold registerById
  cases id with
  | none => exact h
  | some i =>
    dsimp only
    split
    · exact ⟨h.1, h.2.1, h.2.2.1, h.2.2.2⟩
    · obtain ⟨h1, h2, h3, h4⟩ := h
      refine ⟨h1, h2, h3, ?_⟩
      intro p hp
      rcases mem_setA hp with hp2 | hp2
      · exact h4 p hp2
      · rw [hp2]
        exact hc i rfl

theorem register2_inv {id : Option String} {ctorId : Nat}
    {inst : WorkbenchContributionInstantiation} (h : Inv s) :
    Inv (registerWorkbenchContribution2 cf id ctorId inst s) := by
  unfold registerWorkbenchContribution2
  cases htp : toPhase inst with
  | none => exact registerById_inv (fun i hi => hi) h
  | some p =>
    dsimp only
    split
    · exact safeCreate_inv h
    · exact registerById_inv (fun i hi => hi) ⟨h.1, h.2.1, h.2.2.1, h.2.2.2⟩

theorem getContribution_inv {id : String} (h : Inv s) :
    Inv (getWorkbenchContribution cf id s).1 := by
  unfold getWorkbenchContribution
  cases hx : lookupA s.instancesById id
  · dsimp only
    split
    · exact h
    · cases hc : lookupA s.contributionsById id
      · exact h
      · dsimp only
        have h1 : Inv (if s.lifecyclePhase.toNat < LifecyclePhase.Restored.toNat then
            { s with log := s.log ++ [LogEvent.earlyGet id] } else s) := by
          split
          · exact ⟨h.1, h.2.1, h.2.2.1, h.2.2.2⟩
          · exact h
        split
        · exact safeCreate_inv h1
        · exact safeCreate_inv h1
  · exact h

theorem step_inv (e : Event) (h : Inv s) : Inv (step cf s e) := by
  cases e with
  | register id ctorId inst => exact register2_inv h
  | registerLegacy ctorId p => exact register2_inv h
  | start => exact start_inv h
  | advance p => exact advancePhase_inv h
  | getContribution id => exact getContribution_inv h
  | runIdle idx budget =>
    dsimp only [step]
    cases hx : s.idleTasks.get? idx with
    | none => exact h
    | some t =>
      have htmem : t ∈ s.idleTasks := List.get?_mem hx
      have herase : Inv { s with idleTasks := s.idleTasks.eraseIdx idx } := by
        obtain ⟨h1, h2, h3, h4⟩ := h
        refine ⟨h1, ?_, ?_, h4⟩
        · intro t2 ht2
          exact h2 t2 (List.eraseIdx_subset _ _ ht2)
        · intro t2 ht2 hp
          exact h3 t2 (List.eraseIdx_subset _ _ ht2) hp
      exact runIdleTask_inv herase (h.2.1 t htmem) (fun hp => h.2.2.1 t htmem hp)

theorem initState_inv : Inv initState := by
  refine ⟨by simp [initState], ?_, ?_, ?_⟩ <;> intro x hx <;> simp [initState] at hx

theorem run_inv (cf : Nat → Bool) (events : List Event) : Inv (run cf events) :=
  foldl_pres (fun _s2 e h2 => step_inv e h2) events initState initState_inv

end InvPres

/-! ## Run-level helpers -/

theorem run_append (cf : Nat → Bool) (events more : List Event) :
    run cf (events ++ more) = more.foldl (step cf) (run cf events) := by
  simp [run, List.foldl_append]

theorem run_snoc (cf : Nat → Bool) (events : List Event) (e : Event) :
    run cf (events ++ [e]) = step cf (run cf events) e := by
  simp [run, List.foldl_append]

/-! ## Full characterization of one idle slice's state effect -/

/-- The state produced by one `instantiateSome` slice is exactly the
fold of `safeCreateContribution`, in order, over the next
`min (budget + 1) (length - i)` descriptors of the batch. -/
theorem instantiateSome_fst (cf : Nat → Bool) (contribs : List Registration)
    (phase : LifecyclePhase) :
    ∀ b i s, (instantiateSome cf contribs phase b i s).1 =
      ((contribs.drop i).take (min (b + 1) (contribs.length - i))).foldl
        (fun acc c => safeCreateContribution cf c phase acc) s := by
  intro b
  induction b with
  | zero =>
    intro i s
    unfold instantiateSome
    split
    · next h =>
      dsimp only
      have h1 : min (0 + 1) (contribs.length - i) = 0 + 1 := by omega
      rw [h1, List.drop_eq_getElem_cons h, List.take_succ_cons, List.take_zero,
        List.foldl_cons, List.foldl_nil]
      rfl
    · next h =>
      rw [List.drop_eq_nil_of_le (by omega)]
      simp
  | succ n ih =>
    intro i s
    unfold instantiateSome
    split
    · next h =>
      dsimp only
      rw [ih (i + 1) (safeCreateContribution cf (contribs.get ⟨i, h⟩) phase s)]
      rw [List.drop_eq_getElem_cons h]
      have hmin : min (n + 1 + 1) (contribs.length - i)
          = min (n + 1) (contribs.length - (i + 1)) + 1 := by omega
      rw [hmin, List.take_succ_cons, List.foldl_cons]
      rfl
    · next h =>
      rw [List.drop_eq_nil_of_le (by omega)]
      simp

/-- A Restored-phase idle slice whose deadline outlasts the remaining
batch (or that drains it exactly) completes the Restored signal. -/
theorem runIdleTask_completes {cf : Nat → Bool} {t : IdleTask} {budget : Nat} {s : State}
    (hph : t.phase = .Restored) (hsig : s.restoredSignal ≠ .rejected)
    (hi : t.i ≤ t.contributions.length)
    (hb : t.contributions.length ≤ t.i + budget + 1) :
    (runIdleTask cf t budget s).restoredSignal = .completed := by
  have hsnd := instantiateSome_snd cf t.contributions t.phase budget t.i s
  have hi2 : (instantiateSome cf t.contributions t.phase budget t.i s).2.1
      = t.contributions.length := by
    rw [hsnd.1]
    split <;> omega
  have hsig1 : (instantiateSome cf t.contributions t.phase budget t.i s).1.restoredSignal
      = s.restoredSignal := by simp
  simp only [runIdleTask]
  set r := instantiateSome cf t.contributions t.phase budget t.i s with hr
  clear_value r
  obtain ⟨s1, i2, resched⟩ := r
  simp only at hi2 hsig1
  subst hi2
  rw [if_pos rfl, if_pos hph]
  apply completeRestored_signal_of_not_rejected
  split
  · show s1.restoredSignal ≠ SignalState.rejected
    rw [hsig1]
    exact hsig
  · show s1.restoredSignal ≠ SignalState.rejected
    rw [hsig1]
    exact hsig

/-! ## Persistence of the instance cache through any event -/

section CachePres

variable {cf : Nat → Bool} {k : String} {v : Nat} {s : State}

theorem instantiateSome_cache {contribs : List Registration} {phase : LifecyclePhase}
    (b i : Nat) (h : lookupA s.instancesById k = some v) :
    lookupA (instantiateSome cf contribs phase b i s).1.instancesById k = some v :=
  instantiateSome_pres (P := fun t => lookupA t.instancesById k = some v)
    (fun _s2 _c2 h2 => safeCreate_cache_persistent h2) b i s h

theorem runIdleTask_cache {t : IdleTask} {budget : Nat}
    (h : lookupA s.instancesById k = some v) :
    lookupA (runIdleTask cf t budget s).instancesById k = some v := by
  have h1 : lookupA (instantiateSome cf t.contributions t.phase budget t.i s).1.instancesById k
      = some v := instantiateSome_cache budget t.i h
  simp only [runIdleTask]
  set r := instantiateSome cf t.contributions t.phase budget t.i s with hr
  clear_value r
  obtain ⟨s1, i2, resched⟩ := r
  simp only at h1
  have h2 : lookupA (if resched = true then
      { s1 with idleTasks := s1.idleTasks ++ [{ t with i := i2 }] } else s1).instancesById k
      = some v := by
    split
    · exact h1
    · exact h1
  split
  · split
    · rw [completeRestored_instancesById]
      exact h2
    · exact h2
  · exact h2

theorem doInstantiateByPhase_cache {p : LifecyclePhase}
    (h : lookupA s.instancesById k = some v) :
    lookupA (doInstantiateByPhase cf p s).instancesById k = some v := by
  unfold doInstantiateByPhase
  split
  · exact h
  · next contribs hget =>
    cases p with
    | Starting =>
      exact foldl_pres (P := fun t => lookupA t.instancesById k = some v)
        (fun _s2 _c2 h2 => safeCreate_cache_persistent h2) contribs _ h
    | Ready =>
      exact foldl_pres (P := fun t => lookupA t.instancesById k = some v)
        (fun _s2 _c2 h2 => safeCreate_cache_persistent h2) contribs _ h
    | Restored => exact h
    | Eventually =>
      dsimp only
      split
      · exact h
      · exact h
      · exact h

theorem advancePhase_cache {p : LifecyclePhase}
    (h : lookupA s.instancesById k = some v) :
    lookupA (advancePhase cf p s).instancesById k = some v := by
  unfold advancePhase
  split
  · exact foldl_pres (P := fun t => lookupA t.instancesById k = some v)
      (fun _s2 _p2 h2 => by
        dsimp only
        split
        · exact doInstantiateByPhase_cache h2
        · exact h2)
      [LifecyclePhase.Starting, .Ready, .Restored, .Eventually] _ h
  · exact h

theorem start_cache (h : lookupA s.instancesById k = some v) :
    lookupA (start cf s).instancesById k = some v :=
  foldl_pres (P := fun t => lookupA t.instancesById k = some v)
    (fun _s2 _p2 h2 => by
      unfold instantiateByPhase
      split
      · exact doInstantiateByPhase_cache h2
      · exact h2)
    [LifecyclePhase.Starting, .Ready, .Restored, .Eventually] _ h

theorem register2_cache {id : Option String} {ctorId : Nat}
    {inst : WorkbenchContributionInstantiation}
    (h : lookupA s.instancesById k = some v) :
    lookupA (registerWorkbenchContribution2 cf id ctorId inst s).instancesById k = some v := by
  unfold registerWorkbenchContribution2
  cases htp : toPhase inst with
  | none =>
    rw [registerById_instancesById]
    exact h
  | some p =>
    dsimp only
    split
    · exact safeCreate_cache_persistent h
    · rw [registerById_instancesById]
      exact h

theorem getContribution_cache {id : String}
    (h : lookupA s.instancesById k = some v) :
    lookupA (getWorkbenchContribution cf id s).1.instancesById k = some v := by
  unfold getWorkbenchContribution
  cases hx : lookupA s.instancesById id
  · dsimp only
    split
    · exact h
    · cases hc : lookupA s.contributionsById id
      · exact h
      · dsimp only
        split
        · apply safeCreate_cache_persistent
          split
          · exact h
          · exact h
        · apply safeCreate_cache_persistent
          split
          · exact h
          · exact h
  · exact h

/-- The instance cache is append-only: a cached binding survives every
event of the cooperative loop. -/
theorem step_cache (e : Event) (h : lookupA s.instancesById k = some v) :
    lookupA (step cf s e).instancesById k = some v := by
  cases e with
  | register id ctorId inst => exact register2_cache h
  | registerLegacy ctorId p => exact register2_cache h
  | start => exact start_cache h
  | advance p => exact advancePhase_cache h
  | getContribution id => exact getContribution_cache h
  | runIdle idx budget =>
    dsimp only [step]
    cases hx : s.idleTasks.get? idx with
    | none => exact h
    | some t => exact runIdleTask_cache h

theorem foldl_cache (more : List Event) (h : lookupA s.instancesById k = some v) :
    lookupA (more.foldl (step cf) s).instancesById k = some v :=
  foldl_pres (P := fun t => lookupA t.instancesById k = some v)
    (fun _s2 e h2 => step_cache e h2) more s h

end CachePres

/-! ## Phase-driver dispatch helpers -/

/-- Dispatching a phase always leaves that phase's pending entry
removed from the by-phase index. -/
theorem doInstantiateByPhase_pop (cf : Nat → Bool) (p : LifecyclePhase) (s : State) :
    (doInstantiateByPhase cf p s).contributionsByPhase.get p = none := by
  unfold doInstantiateByPhase
  split
  · next hget => exact hget
  · next contribs hget =>
    cases p with
    | Starting =>
      rw [foldl_safeCreate_proj (g := State.contributionsByPhase)
        (fun s2 c => safeCreate_contributionsByPhase cf c _ s2)]
      simp
    | Ready =>
      rw [foldl_safeCreate_proj (g := State.contributionsByPhase)
        (fun s2 c => safeCreate_contributionsByPhase cf c _ s2)]
      simp
    | Restored => simp
    | Eventually =>
      dsimp only
      split
      · simp
      · simp
      · simp

/-- A single registered phase continuation, once its phase is reached,
fires exactly once: it is removed from the waiter list before its
dispatch runs. -/
theorem firePhaseWaiters_single (cf : Nat → Bool) (s : State) (q : LifecyclePhase)
    (hw : s.phaseWaiters = [q]) (hq : q.toNat ≤ s.lifecyclePhase.toNat) :
    firePhaseWaiters cf s = doInstantiateByPhase cf q { s with phaseWaiters := [] } := by
  unfold firePhaseWaiters
  cases q <;> simp [hw, hq]

/-! ## The budget-0 drain chain for a Restored batch -/

theorem completeRestored_of_no_waiter {s : State} (hev : s.eventuallyWaiting = none) :
    (completeRestored s).idleTasks = s.idleTasks ∧
    (completeRestored s).eventuallyWaiting = none := by
  unfold completeRestored
  split
  · dsimp only
    split
    · next heq =>
      rw [hev] at heq
      exact Option.noConfusion heq
    · exact ⟨rfl, hev⟩
  · exact ⟨rfl, hev⟩

/-- The queue and waiting-continuation shape of one idle slice, when no
Eventually continuation is parked on the Restored signal: the slice
appends its own reschedule (when the deadline expired) and nothing
else. -/
theorem runIdleTask_shape {cf : Nat → Bool} {t : IdleTask} {budget : Nat} {s : State}
    (hev : s.eventuallyWaiting = none) :
    (runIdleTask cf t budget s).idleTasks =
      (if (instantiateSome cf t.contributions t.phase budget t.i s).2.2 = true then
        s.idleTasks ++ [{ t with i := (instantiateSome cf t.contributions t.phase budget t.i s).2.1 }]
      else s.idleTasks) ∧
    (runIdleTask cf t budget s).eventuallyWaiting = none := by
  have ht := instantiateSome_idleTasks cf t.contributions t.phase budget t.i s
  have he := instantiateSome_eventuallyWaiting cf t.contributions t.phase budget t.i s
  simp only [runIdleTask]
  set r := instantiateSome cf t.contributions t.phase budget t.i s with hr
  clear_value r
  obtain ⟨s1, i2, resched⟩ := r
  simp only at ht he
  rw [hev] at he
  have hS2t : (if resched = true then
      { s1 with idleTasks := s1.idleTasks ++ [{ t with i := i2 }] } else s1).idleTasks
      = (if resched = true then s.idleTasks ++ [{ t with i := i2 }] else s.idleTasks) := by
    split <;> simp [ht]
  have hS2e : (if resched = true then
      { s1 with idleTasks := s1.idleTasks ++ [{ t with i := i2 }] } else s1).eventuallyWaiting
      = none := by
    split <;> simp [he]
  constructor
  · split
    · split
      · rw [(completeRestored_of_no_waiter hS2e).1, hS2t]
      · exact hS2t
    · exact hS2t
  · split
    · split
      · exact (completeRestored_of_no_waiter hS2e).2
      · exact hS2e
    · exact hS2e

/-- One idle slice whose deadline is already expired after a single
creation (`budget = 0`), on a singleton Restored chain: it creates
exactly one descriptor, reschedules itself (even when that descriptor
was the last), and completes the Restored signal exactly when the batch
is exhausted. -/
theorem step_runIdle0 {cf : Nat → Bool} {l : List Registration} {i : Nat} {s : State}
    (htasks : s.idleTasks = [⟨l, i, .Restored, 500⟩])
    (hev : s.eventuallyWaiting = none)
    (hsig : s.restoredSignal ≠ .rejected)
    (hi : i < l.length) :
    (step cf s (.runIdle 0 0)).idleTasks = [⟨l, i + 1, .Restored, 500⟩] ∧
    (step cf s (.runIdle 0 0)).eventuallyWaiting = none ∧
    (step cf s (.runIdle 0 0)).restoredSignal ≠ .rejected ∧
    (i + 1 = l.length → (step cf s (.runIdle 0 0)).restoredSignal = .completed) := by
  have hstep : step cf s (.runIdle 0 0)
      = runIdleTask cf ⟨l, i, .Restored, 500⟩ 0 { s with idleTasks := [] } := by
    dsimp only [step]
    rw [htasks]
    rfl
  have hinst : instantiateSome cf l .Restored 0 i { s with idleTasks := [] } =
      (safeCreateContribution cf (l.get ⟨i, hi⟩) .Restored { s with idleTasks := [] },
        i + 1, true) := by
    unfold instantiateSome
    rw [dif_pos hi]
  obtain ⟨ht2, he2⟩ := @runIdleTask_shape cf ⟨l, i, .Restored, 500⟩ 0
    { s with idleTasks := [] } hev
  rw [hinst] at ht2
  simp only [List.nil_append] at ht2
  refine ⟨?_, ?_, ?_, ?_⟩
  · rw [hstep]
    simpa using ht2
  · rw [hstep]
    exact he2
  · exact step_signal_not_rejected _ hsig
  · intro hlen
    rw [hstep]
    exact runIdleTask_completes rfl hsig (le_of_lt hi)
      (by show l.length ≤ i + 0 + 1; omega)

/-- Draining a singleton Restored chain with `budget = 0` slices: after
`length - i` slices every remaining descriptor has been processed, the
Restored signal is completed, and only the spurious final reschedule is
left in the queue. -/
theorem drain_chain {cf : Nat → Bool} :
    ∀ (n : Nat) (l : List Registration) (i : Nat) (s : State),
      n = l.length - i → i < l.length →
      s.idleTasks = [⟨l, i, .Restored, 500⟩] →
      s.eventuallyWaiting = none →
      s.restoredSignal ≠ .rejected →
      (List.foldl (step cf) s (List.replicate n (.runIdle 0 0))).idleTasks
          = [⟨l, l.length, .Restored, 500⟩] ∧
      (List.foldl (step cf) s (List.replicate n (.runIdle 0 0))).restoredSignal
          = .completed ∧
      (List.foldl (step cf) s (List.replicate n (.runIdle 0 0))).eventuallyWaiting
          = none := by
  intro n
  induction n with
  | zero =>
    intro l i s hn hi htasks hev hsig
    omega
  | succ m ih =>
    intro l i s hn hi htasks hev hsig
    rw [List.replicate_succ, List.foldl_cons]
    obtain ⟨h1, h2, h3, h4⟩ := step_runIdle0 htasks hev hsig hi
    by_cases hlen : i + 1 = l.length
    · have hm : m = 0 := by omega
      subst hm
      simp only [List.replicate, List.foldl_nil]
      refine ⟨?_, h4 hlen, h2⟩
      rw [h1, hlen]
    · exact ih l (i + 1) (step cf s (.runIdle 0 0)) (by omega) (by omega) h1 h2 h3

/-- The spurious final slice: a slice starting with the batch already
exhausted performs no creation, does not reschedule, and removes itself
from the queue, leaving everything else unchanged. -/
theorem drain_final {cf : Nat → Bool} {l : List Registration} {s : State}
    (htasks : s.idleTasks = [⟨l, l.length, .Restored, 500⟩])
    (hsig : s.restoredSignal = .completed) :
    step cf s (.runIdle 0 0) = { s with idleTasks := [] } := by
  have hstep : step cf s (.runIdle 0 0)
      = runIdleTask cf ⟨l, l.length, .Restored, 500⟩ 0 { s with idleTasks := [] } := by
    dsimp only [step]
    rw [htasks]
    rfl
  have hinst : instantiateSome cf l .Restored 0 l.length { s with idleTasks := [] } =
      ({ s with idleTasks := [] }, l.length, false) := by
    unfold instantiateSome
    rw [dif_neg (lt_irrefl _)]
  rw [hstep]
  unfold runIdleTask
  rw [hinst]
  dsimp only
  rw [if_neg Bool.false_ne_true, if_pos rfl, if_pos rfl]
  have hnp : ({ s with idleTasks := ([] : List IdleTask) } : State).restoredSignal
      ≠ SignalState.pending := by
    show s.restoredSignal ≠ SignalState.pending
    rw [hsig]
    exact fun hc => SignalState.noConfusion hc
  unfold completeRestored
  rw [if_neg hnp]

/-! ## Log and registration helpers -/

@[simp] theorem registerById_contributionsByPhase (id : Option String) (c : Registration)
    (s : State) :
    (registerById id c s).contributionsByPhase = s.contributionsByPhase := by
  unfold registerById
  cases id
  · rfl
  · dsimp only
    split <;> rfl

theorem pushByPhase_get_self (m : PhaseMap (List Registration)) (p : LifecyclePhase)
    (c : Registration) :
    (pushByPhase m p c).get p = some ((m.get p).getD [] ++ [c]) := by
  unfold pushByPhase
  cases hm : m.get p <;> simp [hm]

/-- The log only ever grows through a creation attempt. -/
theorem safeCreate_log_mono {cf : Nat → Bool} {c : Registration} {phase : LifecyclePhase}
    {s : State} {a : LogEvent} (h : a ∈ s.log) :
    a ∈ (safeCreateContribution cf c phase s).log := by
  unfold safeCreateContribution
  split
  · exact h
  · rw [recordTiming_log]
    unfold createNow
    cases hcf : cf c.ctorId <;> cases hid : c.id <;> simp [hcf, hid, h]

/-- The forced-construction tail of `getWorkbenchContribution`: with the
instance not yet cached, the registry started, and a pending descriptor
indexed under the id, the outcome is decided entirely by whether the
factory throws, and the early-phase warning is emitted exactly on the
early-phase side condition. -/
theorem getContribution_force {cf : Nat → Bool} {s : State} {id : String} {c : Registration}
    (hni : lookupA s.instancesById id = none)
    (hst : s.started = true)
    (hc : lookupA s.contributionsById id = some c)
    (hid : c.id = some id) :
    (cf c.ctorId = true →
      (getWorkbenchContribution cf id s).2 = Except.error GetError.failedToCreate) ∧
    (cf c.ctorId = false →
      (getWorkbenchContribution cf id s).2 = Except.ok s.nextInstance) ∧
    (s.lifecyclePhase.toNat < LifecyclePhase.Restored.toNat →
      LogEvent.earlyGet id ∈ (getWorkbenchContribution cf id s).1.log) := by
  unfold getWorkbenchContribution
  rw [hni]
  dsimp only
  rw [if_neg (show ¬ s.started = false by rw [hst]; simp)]
  rw [hc]
  dsimp only
  set S1 := (if s.lifecyclePhase.toNat < LifecyclePhase.Restored.toNat then
      { s with log := s.log ++ [LogEvent.earlyGet id] } else s) with hS1
  have hS1inst : S1.instancesById = s.instancesById := by
    rw [hS1]
    split <;> rfl
  have hS1next : S1.nextInstance = s.nextInstance := by
    rw [hS1]
    split <;> rfl
  have hS1log : s.lifecyclePhase.toNat < LifecyclePhase.Restored.toNat →
      LogEvent.earlyGet id ∈ S1.log := by
    intro h2
    rw [hS1, if_pos h2]
    simp
  obtain ⟨hi2, -, -⟩ := @safeCreate_instances_of_fresh cf c S1.lifecyclePhase S1 id
    hid (by rw [hS1inst]; exact hni)
  refine ⟨?_, ?_, ?_⟩
  · intro hcf
    have hnone : lookupA (safeCreateContribution cf c S1.lifecyclePhase S1).instancesById id
        = none := by
      rw [hi2, if_pos hcf, hS1inst]
      exact hni
    split
    · rfl
    · next inst heq =>
      rw [hnone] at heq
      cases heq
  · intro hcf
    have hsome : lookupA (safeCreateContribution cf c S1.lifecyclePhase S1).instancesById id
        = some S1.nextInstance := by
      rw [hi2, hcf, if_neg Bool.false_ne_true]
      exact lookupA_setA_self _ _ _
    split
    · next heq =>
      rw [hsome] at heq
      cases heq
    · next inst heq =>
      rw [hsome] at heq
      cases heq
      dsimp only
      rw [hS1next]
  · intro hph2
    split
    · exact safeCreate_log_mono (hS1log hph2)
    · exact safeCreate_log_mono (hS1log hph2)

/-! ## Claim theorems -/

/-- C9: registering a contribution with the Lazy policy and no id leaves
every piece of registry state unchanged — the by-phase index, the by-id
index, the instance cache, the timing log, the completion signal, the
scheduled work and both observation traces — and never invokes the
factory: the whole-state equality makes the registration silently and
permanently unreachable. -/
theorem lazy_without_id_noop (cf : Nat → Bool) (ctorId : Nat) (s : State) :
    registerWorkbenchContribution2 cf none ctorId .Lazy s = s := rfl

/-- C10: for every lifecycle phase `p` of the four, `toPhase` inverts
`toInstantiation` (`toPhase (toInstantiation p) = some p`), and the
deprecated `registerWorkbenchContribution` has exactly the same effect
on registry state as `registerWorkbenchContribution2` with no id and
the policy `toInstantiation p`. -/
theorem legacy_register_delegates (cf : Nat → Bool) (ctorId : Nat)
    (p : LifecyclePhase) (s : State) :
    toPhase (toInstantiation p) = some p ∧
    registerWorkbenchContribution cf ctorId p s
      = registerWorkbenchContribution2 cf none ctorId (toInstantiation p) s := by
  refine ⟨?_, rfl⟩
  cases p <;> rfl

/-- C1 (amended): the Restored-completion signal never rejects in any
run, its completion is irreversible (so it transitions from pending to
completed at most once), and whenever a scheduled Restored-phase idle
slice drains the rest of its batch (its deadline outlasting the
remaining descriptors), the signal is completed afterwards.  The
original claim's zero-descriptor case is false: with no Restored
descriptor pending at dispatch, no Restored idle slice ever exists and
the signal stays pending forever (see the counterexample). -/
theorem whenRestored_amended (cf : Nat → Bool) :
    (∀ events, (run cf events).restoredSignal ≠ SignalState.rejected) ∧
    (∀ s e, s.restoredSignal = SignalState.completed →
      (step cf s e).restoredSignal = SignalState.completed) ∧
    (∀ events idx budget t,
      (run cf events).idleTasks.get? idx = some t →
      t.phase = .Restored →
      t.contributions.length ≤ t.i + budget + 1 →
      (run cf (events ++ [Event.runIdle idx budget])).restoredSignal
        = SignalState.completed) := by
  refine ⟨fun events => (run_inv cf events).1,
    fun s e h => step_signal_completed e h, ?_⟩
  intro events idx budget t hget hph hb
  have hInv := run_inv cf events
  have hT := hInv.2.1 t (List.get?_mem hget)
  rw [run_snoc]
  dsimp only [step]
  rw [hget]
  exact runIdleTask_completes hph hInv.1 hT.2.2 hb

/-- C1 witness: one Restored descriptor, dispatched at phase Restored;
a single slice with an expired deadline drains it and the signal
completes. -/
theorem whenRestored_amended_witness :
    (run cfNone ([Event.register (some "r") 0 .AfterRestored, Event.start,
        Event.advance .Restored] ++ [Event.runIdle 0 0])).restoredSignal
      = SignalState.completed :=
  (whenRestored_amended cfNone).2.2
    [Event.register (some "r") 0 .AfterRestored, Event.start, Event.advance .Restored]
    0 0 ⟨[⟨some "r", 0⟩], 0, .Restored, 500⟩ (by decide) rfl (by decide)

/-- C2 (amended): the idle-batch dispatch path does respect the gate —
in every reachable state an Eventually-phase idle slice can only be in
the queue once the Restored-completion signal has completed, and
completion is stable under any further event, so no Eventually-batch
construction happens before the signal fires.  The claim is false for
the inline fast path, which constructs an Eventually registration
immediately when the lifecycle phase is already ≥ Eventually without
consulting the signal (see the counterexample). -/
theorem eventually_batch_gated (cf : Nat → Bool) (events : List Event)
    (idx : Nat) (t : IdleTask) (e : Event)
    (hget : (run cf events).idleTasks.get? idx = some t)
    (hph : t.phase = .Eventually) :
    (run cf events).restoredSignal = SignalState.completed ∧
    (run cf (events ++ [e])).restoredSignal = SignalState.completed := by
  have h1 : (run cf events).restoredSignal = SignalState.completed :=
    (run_inv cf events).2.2.1 t (List.get?_mem hget) hph
  refine ⟨h1, ?_⟩
  rw [run_snoc]
  exact step_signal_completed e h1

/-- C2 witness: an Eventually batch scheduled after the Restored batch
drained; the signal is completed when the Eventually slice is queued
and stays completed. -/
theorem eventually_batch_gated_witness :
    (run cfNone [Event.register (some "r") 0 .AfterRestored,
        Event.register (some "e") 1 .Eventually, Event.start,
        Event.advance .Restored, Event.runIdle 0 5,
        Event.advance .Eventually]).restoredSignal = SignalState.completed ∧
    (run cfNone ([Event.register (some "r") 0 .AfterRestored,
        Event.register (some "e") 1 .Eventually, Event.start,
        Event.advance .Restored, Event.runIdle 0 5,
        Event.advance .Eventually] ++ [Event.runIdle 0 9])).restoredSignal
      = SignalState.completed :=
  eventually_batch_gated cfNone
    [Event.register (some "r") 0 .AfterRestored,
      Event.register (some "e") 1 .Eventually, Event.start,
      Event.advance .Restored, Event.runIdle 0 5, Event.advance .Eventually]
    0 ⟨[⟨some "e", 1⟩], 0, .Eventually, 3000⟩ (Event.runIdle 0 9) (by decide) rfl

/-- C4 (amended): the instance cache is append-only, so once a
construction for an id has succeeded, every later
`getWorkbenchContribution` returns the identical cached token without
touching any state — in particular the factory is never invoked again
for that id.  The claim's assertion that the factory runs exactly once
even after a failed attempt is false: a failed attempt leaves the
descriptor indexed and a retry re-invokes the factory (see the
counterexample). -/
theorem instance_cache_idempotent (cf : Nat → Bool) :
    (∀ s more i v, lookupA s.instancesById i = some v →
      lookupA (List.foldl (step cf) s more).instancesById i = some v) ∧
    (∀ s i v, lookupA s.instancesById i = some v →
      getWorkbenchContribution cf i s = (s, Except.ok v)) := by
  refine ⟨fun s more i v h => foldl_cache more h, ?_⟩
  intro s i v h
  unfold getWorkbenchContribution
  rw [h]

/-- C4 witness: a cached instance survives further events and a lookup
returns exactly it, idempotently. -/
theorem instance_cache_idempotent_witness :
    lookupA (List.foldl (step cfNone)
        (run cfNone [Event.start, Event.register (some "a") 5 .BlockStartup])
        [Event.getContribution "a", Event.advance .Eventually]).instancesById "a"
      = some 0 ∧
    getWorkbenchContribution cfNone "a"
        (run cfNone [Event.start, Event.register (some "a") 5 .BlockStartup])
      = (run cfNone [Event.start, Event.register (some "a") 5 .BlockStartup],
          Except.ok 0) :=
  ⟨(instance_cache_idempotent cfNone).1
      (run cfNone [Event.start, Event.register (some "a") 5 .BlockStartup])
      [Event.getContribution "a", Event.advance .Eventually] "a" 0 (by decide),
    (instance_cache_idempotent cfNone).2
      (run cfNone [Event.start, Event.register (some "a") 5 .BlockStartup])
      "a" 0 (by decide)⟩

/-- C5: the complete case analysis of `getWorkbenchContribution` on any
reachable registry state: a cached instance is returned immediately
with no state change; otherwise a "not started" error is thrown exactly
when `start` has not run; otherwise an "unknown contribution" error
exactly when no descriptor is indexed under the id; otherwise
construction is forced at the current lifecycle phase — with the
early-phase warning when that phase is before Restored — and the call
returns the fresh instance when the factory succeeds and throws the
"failed to create" error exactly when the factory throws, the factory's
own exception never propagating (it is absorbed into the logged
creation error). -/
theorem getContribution_cases (cf : Nat → Bool) (events : List Event) (id : String) :
    (∀ v, lookupA (run cf events).instancesById id = some v →
      getWorkbenchContribution cf id (run cf events)
        = (run cf events, Except.ok v)) ∧
    (lookupA (run cf events).instancesById id = none →
      (run cf events).started = false →
      getWorkbenchContribution cf id (run cf events)
        = (run cf events, Except.error GetError.notStarted)) ∧
    (lookupA (run cf events).instancesById id = none →
      (run cf events).started = true →
      lookupA (run cf events).contributionsById id = none →
      getWorkbenchContribution cf id (run cf events)
        = (run cf events, Except.error GetError.unknown)) ∧
    (∀ c, lookupA (run cf events).instancesById id = none →
      (run cf events).started = true →
      lookupA (run cf events).contributionsById id = some c →
      ((cf c.ctorId = true →
          (getWorkbenchContribution cf id (run cf events)).2
            = Except.error GetError.failedToCreate) ∧
       (cf c.ctorId = false →
          (getWorkbenchContribution cf id (run cf events)).2
            = Except.ok (run cf events).nextInstance) ∧
       ((run cf events).lifecyclePhase.toNat < LifecyclePhase.Restored.toNat →
          LogEvent.earlyGet id
            ∈ (getWorkbenchContribution cf id (run cf events)).1.log))) := by
  refine ⟨?_, ?_, ?_, ?_⟩
  · intro v hv
    unfold getWorkbenchContribution
    rw [hv]
  · intro h1 h2
    unfold getWorkbenchContribution
    rw [h1]
    dsimp only
    rw [if_pos h2]
  · intro h1 h2 h3
    unfold getWorkbenchContribution
    rw [h1]
    dsimp only
    rw [if_neg (show ¬ (run cf events).started = false by rw [h2]; simp), h3]
  · intro c h1 h2 h3
    have hid : c.id = some id :=
      (run_inv cf events).2.2.2 (id, c) (lookupA_mem h3)
    exact getContribution_force h1 h2 h3 hid

/-- C5 witness: a Lazy descriptor under id `"a"` whose factory
succeeds, looked up after start at phase Starting: the call returns the
fresh token and emits the early-phase warning. -/
theorem getContribution_cases_witness :
    ((cfNone 7 = true →
        (getWorkbenchContribution cfNone "a"
          (run cfNone [Event.register (some "a") 7 .Lazy, Event.start])).2
          = Except.error GetError.failedToCreate) ∧
     (cfNone 7 = false →
        (getWorkbenchContribution cfNone "a"
          (run cfNone [Event.register (some "a") 7 .Lazy, Event.start])).2
          = Except.ok (run cfNone [Event.register (some "a") 7 .Lazy, Event.start]).nextInstance) ∧
     ((run cfNone [Event.register (some "a") 7 .Lazy, Event.start]).lifecyclePhase.toNat
          < LifecyclePhase.Restored.toNat →
        LogEvent.earlyGet "a"
          ∈ (getWorkbenchContribution cfNone "a"
              (run cfNone [Event.register (some "a") 7 .Lazy, Event.start])).1.log)) :=
  (getContribution_cases cfNone [Event.register (some "a") 7 .Lazy, Event.start] "a").2.2.2
    ⟨some "a", 7⟩ (by decide) (by decide) (by decide)

/-- C3 (amended): a duplicate id arriving on the deferred registration
path leaves the by-id index unchanged (the first registration wins) and
appends exactly one conflict log entry — the only other state change is
the duplicate descriptor's append to its phase's pending sequence; and
once an instance is cached under the id, any registration carrying that
id is a complete no-op in `safeCreateContribution`, so after a
successful first construction the second descriptor's factory can never
be invoked.  The claim's stronger assertions — exactly one descriptor
retained in the indexes, and first-only constructibility even when the
first factory fails — are false (see the counterexample). -/
theorem duplicate_id_amended (cf : Nat → Bool) (s : State) (i : String)
    (c : Registration) (ctorId : Nat) (inst : WorkbenchContributionInstantiation)
    (phase : LifecyclePhase) :
    (toPhase inst = some phase →
      ¬(s.started = true ∧ inst.toNat ≤ s.lifecyclePhase.toNat) →
      lookupA s.contributionsById i = some c →
      registerWorkbenchContribution2 cf (some i) ctorId inst s =
        { s with
            contributionsByPhase :=
              pushByPhase s.contributionsByPhase phase ⟨some i, ctorId⟩,
            log := s.log ++ [LogEvent.duplicateId i] }) ∧
    (∀ s2 phase2, c.id = some i → (lookupA s2.instancesById i).isSome →
      safeCreateContribution cf c phase2 s2 = s2) := by
  constructor
  · intro htp hcond hdup
    unfold registerWorkbenchContribution2
    rw [htp]
    dsimp only
    rw [if_neg hcond]
    unfold registerById
    dsimp only
    split
    · rfl
    · next hcontra =>
      exact absurd
        (show (lookupA s.contributionsById i).isSome = true by rw [hdup]; rfl) hcontra
  · intro s2 phase2 hid hcached
    exact safeCreate_of_cached hid hcached

/-- C3 witness: a second registration under the already-taken id `"x"`
before start is logged once and dropped from the by-id index; and with
the instance for `"x"` already cached, a creation attempt for the first
descriptor is a no-op. -/
theorem duplicate_id_amended_witness :
    (registerWorkbenchContribution2 cfNone (some "x") 1 .AfterRestored
        (run cfNone [Event.register (some "x") 0 .AfterRestored]) =
      { (run cfNone [Event.register (some "x") 0 .AfterRestored]) with
          contributionsByPhase := pushByPhase
            (run cfNone [Event.register (some "x") 0 .AfterRestored]).contributionsByPhase
            .Restored ⟨some "x", 1⟩,
          log := (run cfNone [Event.register (some "x") 0 .AfterRestored]).log
            ++ [LogEvent.duplicateId "x"] }) ∧
    safeCreateContribution cfNone ⟨some "x", 0⟩ .Eventually
        (run cfNone [Event.start, Event.register (some "x") 0 .BlockStartup])
      = run cfNone [Event.start, Event.register (some "x") 0 .BlockStartup] :=
  ⟨(duplicate_id_amended cfNone
      (run cfNone [Event.register (some "x") 0 .AfterRestored]) "x"
      ⟨some "x", 0⟩ 1 .AfterRestored .Restored).1 rfl (by decide) (by decide),
    (duplicate_id_amended cfNone
      (run cfNone [Event.start, Event.register (some "x") 0 .BlockStartup]) "x"
      ⟨some "x", 0⟩ 1 .AfterRestored .Restored).2
      (run cfNone [Event.start, Event.register (some "x") 0 .BlockStartup])
      .Eventually rfl (by decide)⟩

/-- C6 (amended): case analysis of `registerWorkbenchContribution2`.
(i) Inline fast path — started, phase ≥ policy, non-Lazy: the factory
is invoked immediately and synchronously, the pending-by-phase store is
bypassed, and on success the fresh instance is cached — provided no
instance is already cached under the registration's id (in that case
the call is a no-op; see the counterexample).  (ii) A Lazy registration
never touches the by-phase index, never invokes the factory, and with a
fresh id is stored exactly in the by-id index.  (iii) A deferred
phase-mapped registration is appended at the end of its phase's pending
sequence (insertion order preserved), the factory is not invoked, and a
fresh id is additionally stored in the by-id index. -/
theorem register_cases (cf : Nat → Bool) (s : State) (id : Option String)
    (ctorId : Nat) (inst : WorkbenchContributionInstantiation) :
    (∀ phase, toPhase inst = some phase → s.started = true →
      inst.toNat ≤ s.lifecyclePhase.toNat →
      idCached ⟨id, ctorId⟩ s = false →
      (registerWorkbenchContribution2 cf id ctorId inst s).created
          = s.created ++ [ctorId] ∧
      (registerWorkbenchContribution2 cf id ctorId inst s).contributionsByPhase
          = s.contributionsByPhase ∧
      (cf ctorId = false → ∀ i, id = some i →
        lookupA (registerWorkbenchContribution2 cf id ctorId inst s).instancesById i
          = some s.nextInstance)) ∧
    (inst = .Lazy →
      (registerWorkbenchContribution2 cf id ctorId inst s).contributionsByPhase
          = s.contributionsByPhase ∧
      (registerWorkbenchContribution2 cf id ctorId inst s).created = s.created ∧
      (∀ i, id = some i → lookupA s.contributionsById i = none →
        registerWorkbenchContribution2 cf id ctorId inst s
          = { s with contributionsById := setA s.contributionsById i ⟨id, ctorId⟩ })) ∧
    (∀ phase, toPhase inst = some phase →
      ¬(s.started = true ∧ inst.toNat ≤ s.lifecyclePhase.toNat) →
      (registerWorkbenchContribution2 cf id ctorId inst s).contributionsByPhase.get phase
          = some (((s.contributionsByPhase.get phase).getD []) ++ [⟨id, ctorId⟩]) ∧
      (registerWorkbenchContribution2 cf id ctorId inst s).created = s.created ∧
      (∀ i, id = some i → lookupA s.contributionsById i = none →
        registerWorkbenchContribution2 cf id ctorId inst s
          = { s with
                contributionsByPhase :=
                  pushByPhase s.contributionsByPhase phase ⟨id, ctorId⟩,
                contributionsById := setA s.contributionsById i ⟨id, ctorId⟩ })) := by
  refine ⟨?_, ?_, ?_⟩
  · intro phase htp hst hle hg
    unfold registerWorkbenchContribution2
    rw [htp]
    dsimp only
    rw [if_pos ⟨hst, hle⟩]
    exact safeCreate_not_cached hg
  · intro hL
    subst hL
    refine ⟨?_, ?_, ?_⟩
    · show (registerById id ⟨id, ctorId⟩ s).contributionsByPhase = s.contributionsByPhase
      simp
    · show (registerById id ⟨id, ctorId⟩ s).created = s.created
      simp
    · intro i hi hfresh
      subst hi
      show registerById (some i) ⟨some i, ctorId⟩ s = _
      unfold registerById
      dsimp only
      split
      · next hcontra => simp [hfresh] at hcontra
      · rfl
  · intro phase htp hcond
    unfold registerWorkbenchContribution2
    rw [htp]
    dsimp only
    rw [if_neg hcond]
    refine ⟨?_, by simp, ?_⟩
    · rw [registerById_contributionsByPhase]
      exact pushByPhase_get_self _ _ _
    · intro i hi hfresh
      subst hi
      unfold registerById
      dsimp only
      split
      · next hcontra => simp [hfresh] at hcontra
      · rfl

/-- C6 witness: an inline registration at phase Starting with a fresh
id is constructed immediately, bypassing the pending store and caching
the fresh token. -/
theorem register_cases_witness :
    (registerWorkbenchContribution2 cfNone (some "y") 2 .BlockStartup
        (run cfNone [Event.start])).created
      = (run cfNone [Event.start]).created ++ [2] ∧
    (registerWorkbenchContribution2 cfNone (some "y") 2 .BlockStartup
        (run cfNone [Event.start])).contributionsByPhase
      = (run cfNone [Event.start]).contributionsByPhase ∧
    (cfNone 2 = false → ∀ i, (some "y" : Option String) = some i →
      lookupA (registerWorkbenchContribution2 cfNone (some "y") 2 .BlockStartup
          (run cfNone [Event.start])).instancesById i
        = some (run cfNone [Event.start]).nextInstance) :=
  (register_cases cfNone (run cfNone [Event.start]) (some "y") 2 .BlockStartup).1
    .Starting rfl (by decide) (by decide) (by decide)

/-- C7: the Phase Driver.  `start` walks the four phases in the fixed
increasing order with the services recorded first; a phase whose
lifecycle milestone is already reached is processed immediately, and
otherwise a one-shot continuation is registered which, when fired, is
removed from the waiter list before its dispatch runs.  Processing a
phase always removes that phase's entire pending sequence from the
by-phase index first, and then dispatches it: Starting/Ready inline
over the popped list (the deleted-index state is the fold's starting
state, exhibiting pop-before-instantiate), Restored to the idle
batcher, and Eventually to the idle batcher when the Restored signal
has completed, otherwise parking the popped list on the signal. -/
theorem start_phase_driver (cf : Nat → Bool) (s : State) (p q : LifecyclePhase)
    (contribs : List Registration) :
    (start cf s = [LifecyclePhase.Starting, .Ready, .Restored, .Eventually].foldl
        (fun acc r => instantiateByPhase cf r acc) { s with started := true }) ∧
    (p.toNat ≤ s.lifecyclePhase.toNat →
      instantiateByPhase cf p s = doInstantiateByPhase cf p s) ∧
    (s.lifecyclePhase.toNat < p.toNat →
      instantiateByPhase cf p s = { s with phaseWaiters := s.phaseWaiters ++ [p] }) ∧
    (s.phaseWaiters = [q] → q.toNat ≤ s.lifecyclePhase.toNat →
      firePhaseWaiters cf s = doInstantiateByPhase cf q { s with phaseWaiters := [] }) ∧
    ((doInstantiateByPhase cf p s).contributionsByPhase.get p = none) ∧
    (s.contributionsByPhase.get p = some contribs →
      ((p = .Starting ∨ p = .Ready) →
        doInstantiateByPhase cf p s = contribs.foldl
          (fun acc c => safeCreateContribution cf c p acc)
          { s with contributionsByPhase := s.contributionsByPhase.delete p }) ∧
      (p = .Restored →
        doInstantiateByPhase cf p s = doInstantiateWhenIdle contribs .Restored
          { s with contributionsByPhase := s.contributionsByPhase.delete p }) ∧
      (p = .Eventually → s.restoredSignal = SignalState.completed →
        doInstantiateByPhase cf p s = doInstantiateWhenIdle contribs .Eventually
          { s with contributionsByPhase := s.contributionsByPhase.delete p }) ∧
      (p = .Eventually → s.restoredSignal = SignalState.pending →
        doInstantiateByPhase cf p s =
          { s with contributionsByPhase := s.contributionsByPhase.delete p,
                   eventuallyWaiting := some contribs })) := by
  refine ⟨rfl, ?_, ?_, ?_, doInstantiateByPhase_pop cf p s, ?_⟩
  · intro h
    unfold instantiateByPhase
    rw [if_pos h]
  · intro h
    unfold instantiateByPhase
    rw [if_neg (by omega)]
  · intro hw hq
    exact firePhaseWaiters_single cf s q hw hq
  · intro hget
    refine ⟨?_, ?_, ?_, ?_⟩
    · intro hp
      rcases hp with hp | hp <;> subst hp <;>
        · unfold doInstantiateByPhase
          rw [hget]
    · intro hp
      subst hp
      unfold doInstantiateByPhase
      rw [hget]
    · intro hp hsig
      subst hp
      unfold doInstantiateByPhase
      rw [hget]
      dsimp only
      rw [hsig]
    · intro hp hsig
      subst hp
      unfold doInstantiateByPhase
      rw [hget]
      dsimp only
      rw [hsig]

/-- C7 witness: with one Restored-phase descriptor pending, the
Starting phase (already reached) dispatches immediately, and the
Restored dispatch pops the batch first and hands the whole popped list
to the idle batcher. -/
theorem start_phase_driver_witness :
    (instantiateByPhase cfNone .Starting
        (run cfNone [Event.register (some "r") 0 .AfterRestored])
      = doInstantiateByPhase cfNone .Starting
        (run cfNone [Event.register (some "r") 0 .AfterRestored])) ∧
    (doInstantiateByPhase cfNone .Restored
        (run cfNone [Event.register (some "r") 0 .AfterRestored])
      = doInstantiateWhenIdle [⟨some "r", 0⟩] .Restored
        { (run cfNone [Event.register (some "r") 0 .AfterRestored]) with
            contributionsByPhase :=
              (run cfNone [Event.register (some "r") 0 .AfterRestored]).contributionsByPhase.delete
                .Restored }) :=
  ⟨(start_phase_driver cfNone
      (run cfNone [Event.register (some "r") 0 .AfterRestored]) .Starting .Ready
      [⟨some "r", 0⟩]).2.1 (by decide),
    ((start_phase_driver cfNone
      (run cfNone [Event.register (some "r") 0 .AfterRestored]) .Restored .Ready
      [⟨some "r", 0⟩]).2.2.2.2.2 (by decide)).2.1 rfl⟩

/-- C8 (amended): the Idle Batch Runner.  (a) One slice creates
descriptors one at a time, in registration order — its state effect is
the fold of the factory over the next `min (budget+1) (length-i)`
descriptors, so at least one per slice that begins with work left — its
index advances to `min (i+budget+1) length`, and it reschedules itself
exactly when the deadline expired after a creation
(`i + budget + 1 ≤ length`), which includes the spurious reschedule
when that creation was the batch's last (see the counterexample to the
claim's "exactly when descriptors remain").  (b) Every queued slice
carries the phase-appropriate forced timeout (500 for Restored, 3000
for Eventually) and a batch index within bounds.  (c) Under a scheduler
granting at most one creation per slice, a Restored batch of N
remaining descriptors is fully drained after N slices, completing the
Restored signal, and one further no-op slice retires the spurious
reschedule, terminating the drain. -/
theorem idle_batch_runner (cf : Nat → Bool) :
    (∀ contribs phase b i s,
      instantiateSome cf contribs phase b i s =
        (((contribs.drop i).take (min (b + 1) (contribs.length - i))).foldl
            (fun acc c => safeCreateContribution cf c phase acc) s,
          (if i < contribs.length then min (i + b + 1) contribs.length else i),
          decide (i + b + 1 ≤ contribs.length))) ∧
    (∀ events t, t ∈ (run cf events).idleTasks →
      t.forcedTimeout = (if t.phase = .Eventually then 3000 else 500) ∧
      t.i ≤ t.contributions.length) ∧
    (∀ l i s, i < l.length →
      s.idleTasks = [(⟨l, i, .Restored, 500⟩ : IdleTask)] →
      s.eventuallyWaiting = none →
      s.restoredSignal ≠ SignalState.rejected →
      (List.foldl (step cf) s
          (List.replicate (l.length - i) (Event.runIdle 0 0))).idleTasks
        = [⟨l, l.length, .Restored, 500⟩] ∧
      (List.foldl (step cf) s
          (List.replicate (l.length - i) (Event.runIdle 0 0))).restoredSignal
        = SignalState.completed ∧
      (List.foldl (step cf) s
          (List.replicate (l.length - i) (Event.runIdle 0 0)
            ++ [Event.runIdle 0 0])).idleTasks = []) := by
  refine ⟨?_, ?_, ?_⟩
  · intro contribs phase b i s
    obtain ⟨h2, h3⟩ := instantiateSome_snd cf contribs phase b i s
    have h1 := instantiateSome_fst cf contribs phase b i s
    have he : instantiateSome cf contribs phase b i s
        = ((instantiateSome cf contribs phase b i s).1,
           (instantiateSome cf contribs phase b i s).2.1,
           (instantiateSome cf contribs phase b i s).2.2) := rfl
    rw [he, h1, h2, h3]
  · intro events t ht
    have hT := (run_inv cf events).2.1 t ht
    exact ⟨hT.2.1, hT.2.2⟩
  · intro l i s hi htasks hev hsig
    obtain ⟨d1, d2, d3⟩ := drain_chain (l.length - i) l i s rfl hi htasks hev hsig
    refine ⟨d1, d2, ?_⟩
    rw [List.foldl_append]
    simp only [List.foldl_cons, List.foldl_nil]
    rw [drain_final d1 d2]

/-- C8 witness: a batch of one Restored descriptor is drained in one
budget-0 slice (signal completed, spurious reschedule queued), and the
follow-up slice empties the queue; and the queued slice after dispatch
carries the Restored forced timeout 500. -/
theorem idle_batch_runner_witness :
    ((List.foldl (step cfNone)
        (run cfNone [Event.register (some "r") 0 .AfterRestored, Event.start,
          Event.advance .Restored])
        (List.replicate 1 (Event.runIdle 0 0))).idleTasks
      = [⟨[⟨some "r", 0⟩], 1, .Restored, 500⟩] ∧
     (List.foldl (step cfNone)
        (run cfNone [Event.register (some "r") 0 .AfterRestored, Event.start,
          Event.advance .Restored])
        (List.replicate 1 (Event.runIdle 0 0))).restoredSignal
      = SignalState.completed ∧
     (List.foldl (step cfNone)
        (run cfNone [Event.register (some "r") 0 .AfterRestored, Event.start,
          Event.advance .Restored])
        (List.replicate 1 (Event.runIdle 0 0) ++ [Event.runIdle 0 0])).idleTasks
      = []) ∧
    ((⟨[⟨some "r", 0⟩], 0, .Restored, 500⟩ : IdleTask).forcedTimeout
        = (if (⟨[⟨some "r", 0⟩], 0, .Restored, 500⟩ : IdleTask).phase = .Eventually
            then 3000 else 500) ∧
      (⟨[⟨some "r", 0⟩], 0, .Restored, 500⟩ : IdleTask).i
        ≤ (⟨[⟨some "r", 0⟩], 0, .Restored, 500⟩ : IdleTask).contributions.length) :=
  ⟨(idle_batch_runner cfNone).2.2 [⟨some "r", 0⟩] 0
      (run cfNone [Event.register (some "r") 0 .AfterRestored, Event.start,
        Event.advance .Restored])
      (by decide) (by decide) (by decide) (by decide),
    (idle_batch_runner cfNone).2.1
      [Event.register (some "r") 0 .AfterRestored, Event.start, Event.advance .Restored]
      ⟨[⟨some "r", 0⟩], 0, .Restored, 500⟩ (by decide)⟩

/-- C1 counterexample: in the run where zero Restored-phase descriptors
were ever registered, the Phase Driver dispatches the Restored (and
Eventually) phase, yet the Restored-completion signal remains pending —
and the final state is quiescent (no scheduled idle slice, no parked
Eventually continuation, no remaining phase waiter), so nothing can
ever complete it.  This contradicts the claim that `whenRestored`
transitions to completed in this run as well. -/
theorem whenRestored_zero_descriptors_cex :
    (run cfNone [Event.start, Event.advance .Eventually]).restoredSignal
        = SignalState.pending ∧
    (run cfNone [Event.start, Event.advance .Eventually]).idleTasks = [] ∧
    (run cfNone [Event.start, Event.advance .Eventually]).eventuallyWaiting = none ∧
    (run cfNone [Event.start, Event.advance .Eventually]).phaseWaiters = [] := by
  decide

/-- C2 counterexample: with one Restored-phase descriptor still awaiting
its idle slice, the lifecycle phase reaches Eventually and a
registration with the Eventually policy arrives; the inline fast path
invokes its factory (constructor `1` is in the `created` trace) while
the Restored-completion signal is still pending — contradicting the
claim for the inline path. -/
theorem eventually_inline_before_restored_cex :
    (run cfNone [Event.register (some "r") 0 .AfterRestored, Event.start,
        Event.advance .Eventually, Event.register (some "e") 1 .Eventually]).created
      = [1] ∧
    (run cfNone [Event.register (some "r") 0 .AfterRestored, Event.start,
        Event.advance .Eventually, Event.register (some "e") 1 .Eventually]).restoredSignal
      = SignalState.pending := by
  decide

/-- C3 counterexample: two registrations share id `"x"`; the first
descriptor's factory (constructor `0`) throws, after which the second
descriptor — which was also appended to the Restored batch — is
constructed as well (`created = [0, 1]`) and its instance is cached
under `"x"`.  This contradicts "only the first-registered descriptor's
factory can ever be invoked ... including when the first descriptor's
factory fails". -/
theorem duplicate_id_second_constructed_cex :
    (run cfZero [Event.register (some "x") 0 .AfterRestored,
        Event.register (some "x") 1 .AfterRestored, Event.start,
        Event.advance .Restored, Event.runIdle 0 5]).created = [0, 1] ∧
    lookupA (run cfZero [Event.register (some "x") 0 .AfterRestored,
        Event.register (some "x") 1 .AfterRestored, Event.start,
        Event.advance .Restored, Event.runIdle 0 5]).instancesById "x" = some 0 := by
  decide

/-- C4 counterexample: the only descriptor's factory always throws;
after a failed `getWorkbenchContribution` a second call invokes the
factory again (`created = [0, 0]`), contradicting "the factory is
invoked exactly once per id across the whole process lifetime ...
including the case where an earlier construction attempt failed". -/
theorem failed_creation_retry_cex :
    (run cfAll [Event.register (some "x") 0 .Lazy, Event.start,
        Event.getContribution "x", Event.getContribution "x"]).created = [0, 0] := by
  decide

/-- C6 counterexample: after `start` (phase Starting), id `"x"` is
registered and constructed inline; a second registration with the same
id also satisfies the claim's antecedent (started, phase ≥ policy,
non-Lazy), yet its factory is never invoked (`created = [0]`, not
`[0, 1]`) because an instance is already cached under its id — and no
conflict is logged either. -/
theorem register_inline_noop_cex :
    (run cfNone [Event.start, Event.register (some "x") 0 .BlockStartup,
        Event.register (some "x") 1 .BlockStartup]).created = [0] ∧
    (run cfNone [Event.start, Event.register (some "x") 0 .BlockStartup,
        Event.register (some "x") 1 .BlockStartup]).log = [] := by
  decide

/-- C8 counterexample: a Restored batch of exactly one descriptor is
drained by a slice whose deadline expires after the creation; although
no descriptors remain (`i = 1 = length`), the slice still reschedules
itself — the queued task below — contradicting "a slice reschedules
itself ... exactly when descriptors remain and the deadline reports
less than 1 time-unit remaining". -/
theorem idle_spurious_reschedule_cex :
    (run cfNone [Event.register (some "r") 0 .AfterRestored, Event.start,
        Event.advance .Restored, Event.runIdle 0 0]).idleTasks
      = [⟨[⟨some "r", 0⟩], 1, .Restored, 500⟩] ∧
    (run cfNone [Event.register (some "r") 0 .AfterRestored, Event.start,
        Event.advance .Restored, Event.runIdle 0 0]).restoredSignal
      = SignalState.completed := by
  decide

end VSContrib
